import Mathlib

/-!
Verification of `scripts/update_badges.py`: a pipeline that fetches badge
records (JSON), groups them by issuer, renders an HTML fragment and splices
it between two marker comments in a README file.

The Python program is shallowly embedded: JSON-like dynamic values become the
inductive type `Val`; Python subscription, equality, ordering and string
conversion become executable functions on `Val`; exceptions become
`Except Exc`.  The functions `issuer_name`, `group_badges`, `badge_html`,
`render_section` and `update_readme` mirror the source functions of the same
names; `mainRun` mirrors `main` as a function of the fetch outcome.
-/

namespace Badges

/-- Exceptions the embedded code can raise.  Python's `issuer_name` catches
`KeyError` and `IndexError`; `TypeError` (wrongly typed subscription,
unhashable key, unorderable comparison) and `AttributeError` (`.get` on a
non-dict) are never caught inside the pipeline. -/
inductive Exc where
  | keyError
  | indexError
  | typeError
  | attributeError
deriving DecidableEq, Repr

/-- JSON-like dynamic values (the values `json.loads` can produce, floats
omitted; dicts are association lists in insertion order). -/
inductive Val where
  | null
  | bool (b : Bool)
  | num (n : Int)
  | str (s : String)
  | list (xs : List Val)
  | dict (kvs : List (Val × Val))

mutual

/-- Python `==` on values: `bool` and `int` compare numerically, strings and
lists structurally/lexicographically.  Dicts are compared entrywise in
insertion order; Python's dict `==` is insertion-order-insensitive, but the
pipeline never reaches a dict-to-dict equality (dict keys are hashable
scalars, and a comparison between dict sort keys raises `TypeError` at the
ordering step), so the two notions agree on every comparison the embedded
code performs. -/
def pyEq : Val → Val → Bool
  | .null, .null => true
  | .bool a, .bool b => a == b
  | .bool a, .num b => (if a then (1 : Int) else 0) == b
  | .num a, .bool b => a == (if b then (1 : Int) else 0)
  | .num a, .num b => a == b
  | .str a, .str b => a == b
  | .list as, .list bs => pyEqList as bs
  | .dict as, .dict bs => pyEqKVs as bs
  | _, _ => false

/-- Elementwise Python `==` of two lists. -/
def pyEqList : List Val → List Val → Bool
  | [], [] => true
  | a :: as, b :: bs => pyEq a b && pyEqList as bs
  | _, _ => false

/-- Entrywise `==` of two association lists. -/
def pyEqKVs : List (Val × Val) → List (Val × Val) → Bool
  | [], [] => true
  | (k, v) :: as, (k2, v2) :: bs => pyEq k k2 && pyEq v v2 && pyEqKVs as bs
  | _, _ => false

end

/-- Python hashability: lists and dicts are unhashable, scalars are hashable. -/
def hashable : Val → Bool
  | .list _ => false
  | .dict _ => false
  | _ => true

/-- Canonical key of a hashable scalar: `True`/`1` collapse to the same key,
mirroring Python's `hash`/`==` contract on the scalars JSON can produce. -/
inductive SKey where
  | unitk
  | intk (n : Int)
  | strk (s : String)
deriving DecidableEq

/-- Scalar canonicalisation used only in proofs about dict-key equality. -/
def toKey : Val → Option SKey
  | .null => some .unitk
  | .bool b => some (.intk (if b then 1 else 0))
  | .num n => some (.intk n)
  | .str s => some (.strk s)
  | _ => none

/-- First value in an association list whose key `==`-matches the lookup
key (Python dict lookup; keys are unique in dicts the program builds). -/
def dlookup : List (Val × Val) → Val → Option Val
  | [], _ => none
  | (k0, v0) :: rest, k => if pyEq k k0 then some v0 else dlookup rest k

/-- A subscript usable as a sequence index (`int`, or `bool` as 0/1). -/
def asIndex : Val → Option Int
  | .num n => some n
  | .bool b => some (if b then 1 else 0)
  | _ => none

/-- Python sequence index normalisation: non-negative in range, or negative
from the end; otherwise out of range. -/
def normIdx (len : Nat) (i : Int) : Option Nat :=
  if 0 ≤ i ∧ i < (len : Int) then some i.toNat
  else if -(len : Int) ≤ i ∧ i < 0 then some ((len : Int) + i).toNat
  else none

/-- Python subscription `v[k]`: dict lookup (KeyError when absent, TypeError
on unhashable key), list/str indexing (IndexError out of range, TypeError on
non-integer key), TypeError on non-subscriptable values. -/
def subscr : Val → Val → Except Exc Val
  | .dict kvs, k =>
    if hashable k then
      match dlookup kvs k with
      | some v => .ok v
      | none => .error .keyError
    else .error .typeError
  | .list xs, k =>
    (match asIndex k with
     | some i =>
       match normIdx xs.length i with
       | some j =>
         match xs.get? j with
         | some x => .ok x
         | none => .error .indexError
       | none => .error .indexError
     | none => .error .typeError)
  | .str s, k =>
    (match asIndex k with
     | some i =>
       match normIdx s.data.length i with
       | some j =>
         match s.data.get? j with
         | some c => .ok (.str (String.singleton c))
         | none => .error .indexError
       | none => .error .indexError
     | none => .error .typeError)
  | _, _ => .error .typeError

mutual

/-- Python `repr` of a value (string escaping inside `repr` of a string is
simplified to plain quoting; the pipeline only ever stringifies values for
display, and no theorem depends on `repr` of composite values). -/
def pyRepr : Val → String
  | .null => "None"
  | .bool b => if b then "True" else "False"
  | .num n => toString n
  | .str s => "'" ++ s ++ "'"
  | .list xs => "[" ++ pyReprList xs ++ "]"
  | .dict kvs => "\x7b" ++ pyReprDict kvs ++ "\x7d"

/-- Comma-joined `repr`s of list elements. -/
def pyReprList : List Val → String
  | [] => ""
  | [x] => pyRepr x
  | x :: xs => pyRepr x ++ ", " ++ pyReprList xs

/-- Comma-joined `repr`ed entries of a dict. -/
def pyReprDict : List (Val × Val) → String
  | [] => ""
  | [(k, v)] => pyRepr k ++ ": " ++ pyRepr v
  | (k, v) :: kvs => pyRepr k ++ ": " ++ pyRepr v ++ ", " ++ pyReprDict kvs

end

/-- Python `str` of a value: a string is itself, anything else as `repr`
(which agrees with `str` on the remaining JSON values). -/
def pyStr : Val → String
  | .str s => s
  | v => pyRepr v

/-- Lexicographic strict order on character lists by code point — Python's
string `<`. -/
def lexLt : List Char → List Char → Bool
  | [], [] => false
  | [], _ :: _ => true
  | _ :: _, [] => false
  | c :: cs, d :: ds =>
    if c.toNat < d.toNat then true
    else if d.toNat < c.toNat then false
    else lexLt cs ds

mutual

/-- Python `<` on values: numbers (with `bool` as 0/1) and strings are
ordered, lists lexicographically; any other combination raises `TypeError`. -/
def pyLt : Val → Val → Except Exc Bool
  | .num a, .num b => .ok (decide (a < b))
  | .num a, .bool b => .ok (decide (a < if b then 1 else 0))
  | .bool a, .num b => .ok (decide ((if a then (1 : Int) else 0) < b))
  | .bool a, .bool b => .ok (decide ((if a then (1 : Int) else 0) < if b then 1 else 0))
  | .str a, .str b => .ok (lexLt a.data b.data)
  | .list as, .list bs => pyLtList as bs
  | _, _ => .error .typeError

/-- Python list `<`: skip `==`-equal heads, then compare the first differing
elements; a proper prefix is smaller. -/
def pyLtList : List Val → List Val → Except Exc Bool
  | [], [] => .ok false
  | [], _ :: _ => .ok true
  | _ :: _, [] => .ok false
  | a :: as, b :: bs => if pyEq a b then pyLtList as bs else pyLt a b

end

/-! ## Issuer classifier (`issuer_name`) -/

/-- The raw traversal `badge["badge_template"]["issuer"]["entities"][0]["entity"]["name"]`
(the body of `issuer_name`'s `try`). -/
def issuer_chain (badge : Val) : Except Exc Val := do
  let a ← subscr badge (.str "badge_template")
  let b ← subscr a (.str "issuer")
  let c ← subscr b (.str "entities")
  let d ← subscr c (.num 0)
  let e ← subscr d (.str "entity")
  subscr e (.str "name")

/-- `issuer_name`: the traversal with `except (KeyError, IndexError)`
returning `"Other"`; any other exception propagates. -/
def issuer_name (badge : Val) : Except Exc Val :=
  match issuer_chain badge with
  | .error .keyError => .ok (.str "Other")
  | .error .indexError => .ok (.str "Other")
  | r => r

/-! ## Grouper / orderer (`group_badges`) -/

/-- `ISSUER_ORDER`: display order for known issuers. -/
def ISSUER_ORDER : List String := ["The Linux Foundation", "IBM", "Isovalent"]

/-- `groups.setdefault(issuer, []).append(badge)` on an insertion-ordered
association list: append to the first entry whose key `==`-matches, or add a
new entry at the end. -/
def setdefaultAppend : List (Val × List Val) → Val → Val → List (Val × List Val)
  | [], k, b => [(k, [b])]
  | (k0, g0) :: rest, k, b =>
    if pyEq k k0 then (k0, g0 ++ [b]) :: rest
    else (k0, g0) :: setdefaultAppend rest k b

/-- The grouping loop of `group_badges`: classify each badge and append it to
its issuer's group.  `issuer_name` may raise `TypeError`; `setdefault` raises
`TypeError` on an unhashable issuer. -/
def accumulate : List Val → List (Val × List Val) → Except Exc (List (Val × List Val))
  | [], groups => .ok groups
  | b :: rest, groups =>
    match issuer_name b with
    | .error e => .error e
    | .ok issuer =>
      if hashable issuer then accumulate rest (setdefaultAppend groups issuer b)
      else .error .typeError

/-- The sort key `b.get("issued_at_date", "")` of a badge dict.  The
non-dict branch is unreachable through `sortGroup` (it checks `isDict`
first, mirroring the `AttributeError` `.get` would raise). -/
def dateKey (b : Val) : Val :=
  match b with
  | .dict kvs => (dlookup kvs (.str "issued_at_date")).getD (.str "")
  | _ => .str ""

/-- Is the value a dict (so that `.get` exists on it)? -/
def isDict : Val → Bool
  | .dict _ => true
  | _ => false

/-- Badge `a` may stay before badge `b` in the date-descending sort:
`not (key a < key b)`.  The error branch is unreachable behind the
comparability gate of `sortGroup`. -/
def groupSortRel (a b : Val) : Bool :=
  match pyLt (dateKey a) (dateKey b) with
  | .ok t => !t
  | .error _ => true

/-- Stable insertion of `x` before the first element `y` with `r x y`. -/
def insertOrdered (r : α → α → Bool) (x : α) : List α → List α
  | [] => [x]
  | y :: ys => if r x y then x :: y :: ys else y :: insertOrdered r x ys

/-- Stable insertion sort: the element originally first is inserted last,
landing before every element it is `r`-related to. -/
def insertionSortBy (r : α → α → Bool) : List α → List α
  | [] => []
  | x :: xs => insertOrdered r x (insertionSortBy r xs)

/-- Is `pyLt a b` defined (no `TypeError`)? -/
def comparableB (a b : Val) : Bool :=
  match pyLt a b with
  | .ok _ => true
  | .error _ => false

/-- All pairs of distinct positions are orderable: CPython's sort raises
`TypeError` exactly when it hits an unorderable pair, and any unorderable
pair must be ordered for the sort to complete. -/
def allPairsComp : List Val → Bool
  | [] => true
  | k :: ks => ks.all (comparableB k) && allPairsComp ks

/-- `group.sort(key=lambda b: b.get("issued_at_date", ""), reverse=True)`:
keys are computed first (`AttributeError` on a non-dict badge), then the
stable descending sort runs (`TypeError` on unorderable keys). -/
def sortGroup (grp : List Val) : Except Exc (List Val) :=
  if grp.all isDict then
    if allPairsComp (grp.map dateKey) then .ok (insertionSortBy groupSortRel grp)
    else .error .typeError
  else .error .attributeError

/-- `List.mapM` specialised to `Except` with transparent equations. -/
def mapME (f : α → Except Exc β) : List α → Except Exc (List β)
  | [] => .ok []
  | x :: xs => do
    let y ← f x
    let ys ← mapME f xs
    .ok (y :: ys)

/-- Sort every group's badge list in place (group order and keys unchanged):
the `for group in groups.values(): group.sort(...)` loop. -/
def sortEach : List (Val × List Val) → Except Exc (List (Val × List Val))
  | [] => .ok []
  | e :: rest => do
    let g2 ← sortGroup e.2
    let rest2 ← sortEach rest
    .ok ((e.1, g2) :: rest2)

/-- First group whose key `==`-matches the lookup key. -/
def dlookupEntry : List (Val × List Val) → Val → Option (List Val)
  | [], _ => none
  | (k0, g0) :: rest, k => if pyEq k k0 then some g0 else dlookupEntry rest k

/-- Remove the first entry whose key `==`-matches the lookup key
(`groups.pop(name)`). -/
def removeEntry : List (Val × List Val) → Val → List (Val × List Val)
  | [], _ => []
  | (k0, g0) :: rest, k => if pyEq k k0 then rest else (k0, g0) :: removeEntry rest k

/-- `known = \x7bname: groups.pop(name) for name in ISSUER_ORDER if name in groups\x7d`:
returns the popped entries (keyed by the priority name itself) and the
remaining groups. -/
def popKnown : List String → List (Val × List Val) → List (Val × List Val) × List (Val × List Val)
  | [], groups => ([], groups)
  | n :: ns, groups =>
    match dlookupEntry groups (.str n) with
    | some g0 =>
      let p := popKnown ns (removeEntry groups (.str n))
      ((Val.str n, g0) :: p.1, p.2)
    | none => popKnown ns groups

/-- Entry `e1` may stay before `e2` in `sorted(groups.items())`: keys of a
dict are `==`-distinct, so the tuple comparison reduces to `not (key e2 < key e1)`. -/
def entryRel (e1 e2 : Val × List Val) : Bool :=
  match pyLt e2.1 e1.1 with
  | .ok t => !t
  | .error _ => true

/-- The reordering tail of `group_badges`: pop the known issuers in
`ISSUER_ORDER`, sort the remainder ascending by key (`TypeError` on
unorderable keys), and concatenate. -/
def reorder (groups : List (Val × List Val)) : Except Exc (List (Val × List Val)) :=
  let p := popKnown ISSUER_ORDER groups
  if allPairsComp (p.2.map Prod.fst) then .ok (p.1 ++ insertionSortBy entryRel p.2)
  else .error .typeError

/-- Python iteration `for badge in badges` over the fetched `"data"` value:
lists yield elements, strings their characters, dicts their keys; other
values raise `TypeError`. -/
def toIter : Val → Except Exc (List Val)
  | .list xs => .ok xs
  | .str s => .ok (s.data.map (fun c => Val.str (String.singleton c)))
  | .dict kvs => .ok (kvs.map Prod.fst)
  | _ => .error .typeError

/-- `group_badges`: accumulate insertion-ordered groups, sort each group by
date descending, then reorder the groups. -/
def group_badges (data : Val) : Except Exc (List (Val × List Val)) := do
  let badges ← toIter data
  let g0 ← accumulate badges []
  let g1 ← sortEach g0
  reorder g1

/-! ## Renderer (`badge_html`, `render_section`) -/

/-- `badge_html`: reads `badge["id"]`, `badge["badge_template"]`,
`tmpl["name"]`, `tmpl["image_url"]` (in source order) and builds the anchor
markup; a missing key raises `KeyError`. -/
def badge_html (badge : Val) : Except Exc String := do
  let badge_id ← subscr badge (.str "id")
  let tmpl ← subscr badge (.str "badge_template")
  let tname ← subscr tmpl (.str "name")
  let image_url ← subscr tmpl (.str "image_url")
  .ok ("<a href=\"https://www.credly.com/badges/" ++ pyStr badge_id ++ "/public_url\">"
    ++ "<img height=\"90\" width=\"90\" src=\"" ++ pyStr image_url ++ "\" alt=\""
    ++ pyStr tname ++ "\"/></a>")

/-- The four lines one group contributes to `render_section`. -/
def render_group (issuer : Val) (grp : List Val) : Except Exc (List String) := do
  let frags ← mapME badge_html grp
  .ok ["**" ++ pyStr issuer ++ "**", "", String.intercalate " " frags, ""]

/-- `render_section`: heading, blank line, then each group's four lines,
joined with newlines. -/
def render_section (grouped : List (Val × List Val)) : Except Exc String := do
  let blocks ← mapME (fun e => render_group e.1 e.2) grouped
  .ok (String.intercalate "\n" (["### Certificates & Badges", ""] ++ blocks.flatten))

/-! ## Document patcher (`update_readme`) -/

/-- `START_MARKER`. -/
def START_MARKER : List Char := "<!-- CREDLY_BADGES_START -->".data

/-- `END_MARKER`. -/
def END_MARKER : List Char := "<!-- CREDLY_BADGES_END -->".data

/-- Boolean prefix test on character lists. -/
def leadsWith : List Char → List Char → Bool
  | [], _ => true
  | _ :: _, [] => false
  | p :: ps, h :: hs => p == h && leadsWith ps hs

/-- Python `str.find`: index of the first occurrence of `pat` in `hay`, or
`none` (Python's `-1`). -/
def strFind : List Char → List Char → Option Nat
  | hay, pat =>
    if leadsWith pat hay then some 0
    else
      match hay with
      | [] => none
      | _ :: t => (strFind t pat).map (· + 1)

/-- Outcome of `update_readme`: `sys.exit(1)` on missing markers, a no-op
print when the spliced content equals the file, or a write of new content. -/
inductive PatchResult where
  | markerError
  | noChange
  | written (nc : List Char)
deriving DecidableEq

/-- The spliced content
`readme[: start + len(START_MARKER)] + "\n" + section_content + readme[end:]`. -/
def newContent (readme sec : List Char) (s e : Nat) : List Char :=
  readme.take (s + START_MARKER.length) ++ '\n' :: (sec ++ readme.drop e)

/-- `update_readme`: find the first occurrence of each marker, exit on a
missing marker, otherwise splice and write only on change. -/
def update_readme (sec readme : List Char) : PatchResult :=
  match strFind readme START_MARKER, strFind readme END_MARKER with
  | some s, some e =>
    let nc := newContent readme sec s e
    if nc = readme then .noChange else .written nc
  | _, _ => .markerError

/-! ## Orchestrator (`main`) -/

/-- Outcome of `main` as a function of the fetch result: a caught fetch
failure (warning printed, README untouched, `sys.exit(0)`), an uncaught
exception from grouping/rendering (process dies with a traceback), or the
patcher's outcome. -/
inductive MainResult where
  | fetchWarned
  | crashed (e : Exc)
  | patched (p : PatchResult)
deriving DecidableEq

/-- `main`: `fetch_badges()` inside `try/except Exception`, then
`group_badges`, `render_section`, `update_readme`.  The fetch result is an
input: `.error msg` stands for any exception raised while fetching or
extracting `["data"]` (network error, timeout, bad JSON, missing key). -/
def mainRun (fetched : Except String Val) (readme : List Char) : MainResult :=
  match fetched with
  | .error _ => .fetchWarned
  | .ok data =>
    match group_badges data with
    | .error e => .crashed e
    | .ok grouped =>
      match render_section grouped with
      | .error e => .crashed e
      | .ok sec => .patched (update_readme sec.data readme)

/-- Process exit status of a run: 0 for a handled fetch failure and for the
no-change/write paths, 1 for the marker error (`sys.exit(1)`) and for an
uncaught exception. -/
def exitCode : MainResult → Nat
  | .fetchWarned => 0
  | .crashed _ => 1
  | .patched .markerError => 1
  | .patched .noChange => 0
  | .patched (.written _) => 0

/-- Content of the README after the run: only the `written` path rewrites it. -/
def finalDoc (readme : List Char) : MainResult → List Char
  | .patched (.written nc) => nc
  | _ => readme

/-! ## Concrete inputs used by witnesses and counterexamples, and proof devices -/

/-- C2 counterexample: a document whose end marker precedes its start marker
is not rejected — `update_readme` still splices and writes (here duplicating
the whole document), so the patcher does not "abort without writing". -/
def outOfOrderDoc : List Char := END_MARKER ++ '\n' :: START_MARKER

/-- Concrete document whose marker region holds stale content. -/
def wDocOld : List Char := START_MARKER ++ '\n' :: ('O' :: ('\n' :: END_MARKER))

/-- The document `wDocOld` after splicing in the section "NEW". -/
def wDocNew : List Char := START_MARKER ++ '\n' :: ("NEW".data ++ END_MARKER)

/-- Does the badge's derived issuer `==`-match the key? (proof device) -/
def issuerMB (b k : Val) : Bool :=
  match issuer_name b with
  | .ok v => pyEq v k
  | .error _ => false

/-- The badge's date string (meaningful when the date field holds a string). -/
def strDate (b : Val) : String :=
  match dateKey b with
  | .str s => s
  | _ => ""

/-- Does some badge of the input classify to the given (string) issuer name? -/
def presentB (badges : List Val) (n : String) : Bool :=
  badges.any (fun b =>
    match issuer_name b with
    | .ok (.str m) => m == n
    | _ => false)

/-- Invariant of the grouping loop tying the accumulated groups to the
already-processed badges: each group is the in-order filter of processed
badges matching its key, keys are distinct hashable issuer values of
processed badges, groups are nonempty, and each processed badge matches some
key. -/
def AccInv (ps : List Val) (G : List (Val × List Val)) : Prop :=
  (∀ e ∈ G, e.2 = ps.filter (fun b => issuerMB b e.1)) ∧
  (∀ p ∈ ps, ∃ w, issuer_name p = .ok w ∧ hashable w = true ∧
      ∃ k ∈ G.map Prod.fst, pyEq w k = true) ∧
  ((G.map Prod.fst).Pairwise (fun k1 k2 => toKey k1 ≠ toKey k2)) ∧
  (∀ k ∈ G.map Prod.fst, hashable k = true) ∧
  (∀ e ∈ G, e.2 ≠ []) ∧
  (∀ k ∈ G.map Prod.fst, ∃ p ∈ ps, issuer_name p = .ok k)

/-- Concrete badge: issuer Isovalent, issued 2023-01-01. -/
def wBadge1 : Val :=
  .dict [(.str "id", .str "i1"), (.str "issued_at_date", .str "2023-01-01"),
         (.str "badge_template", .dict
           [(.str "name", .str "t1"), (.str "image_url", .str "u1"),
            (.str "issuer", .dict [(.str "entities", .list
              [.dict [(.str "entity", .dict [(.str "name", .str "Isovalent")])]])])])]

/-- Concrete badge: issuer Zeta, issued 2021-05-05. -/
def wBadge2 : Val :=
  .dict [(.str "id", .str "z1"), (.str "issued_at_date", .str "2021-05-05"),
         (.str "badge_template", .dict
           [(.str "name", .str "t2"), (.str "image_url", .str "u2"),
            (.str "issuer", .dict [(.str "entities", .list
              [.dict [(.str "entity", .dict [(.str "name", .str "Zeta")])]])])])]

/-- Concrete badge: issuer IBM, issued 2022-02-02. -/
def wBadge3 : Val :=
  .dict [(.str "id", .str "m1"), (.str "issued_at_date", .str "2022-02-02"),
         (.str "badge_template", .dict
           [(.str "name", .str "t3"), (.str "image_url", .str "u3"),
            (.str "issuer", .dict [(.str "entities", .list
              [.dict [(.str "entity", .dict [(.str "name", .str "IBM")])]])])])]

/-- Concrete badge: issuer IBM, issued 2024-01-01. -/
def wBadge4 : Val :=
  .dict [(.str "id", .str "m2"), (.str "issued_at_date", .str "2024-01-01"),
         (.str "badge_template", .dict
           [(.str "name", .str "t4"), (.str "image_url", .str "u4"),
            (.str "issuer", .dict [(.str "entities", .list
              [.dict [(.str "entity", .dict [(.str "name", .str "IBM")])]])])])]

/-- The grouping the pipeline computes for the four concrete badges: IBM
first (priority, newest badge first), then Isovalent, then Zeta. -/
def wGroups : List (Val × List Val) :=
  [(.str "IBM", [wBadge4, wBadge3]), (.str "Isovalent", [wBadge1]), (.str "Zeta", [wBadge2])]

/-- Written from C9's words: an anchor to the public badge URL built from
the badge's identifier, wrapping a 90×90 image whose src is the template's
image URL and whose alt text is the template's display name. -/
def badge_html_claim (badge : Val) : Except Exc String := do
  let badge_id ← subscr badge (.str "id")
  let tmpl ← subscr badge (.str "badge_template")
  let tname ← subscr tmpl (.str "name")
  let image_url ← subscr tmpl (.str "image_url")
  .ok ("<a href=\"https://www.credly.com/badges/" ++ pyStr badge_id ++ "/public_url\">"
    ++ "<img height=\"90\" width=\"90\" src=\"" ++ pyStr image_url ++ "\" alt=\""
    ++ pyStr tname ++ "\"/></a>")

/-- Written from C9's words: one group's lines — a bold issuer-name line, a
blank line, one line of the group's fragments joined by single spaces, and a
trailing blank line. -/
def render_group_claim (issuer : Val) (grp : List Val) : Except Exc (List String) := do
  let frags ← mapME badge_html_claim grp
  .ok ["**" ++ pyStr issuer ++ "**", "", String.intercalate " " frags, ""]

/-- Written from C9's words, literally: a fixed section heading line, then
immediately each group's block (no blank line between heading and first
block). -/
def render_section_claim (grouped : List (Val × List Val)) : Except Exc String := do
  let blocks ← mapME (fun e => render_group_claim e.1 e.2) grouped
  .ok (String.intercalate "\n" ("### Certificates & Badges" :: blocks.flatten))

/-- C9 as amended: the heading line is followed by a blank line before the
group blocks (this is the only difference from the claim's wording). -/
def render_section_amended (grouped : List (Val × List Val)) : Except Exc String := do
  let blocks ← mapME (fun e => render_group_claim e.1 e.2) grouped
  .ok (String.intercalate "\n" ("### Certificates & Badges" :: "" :: blocks.flatten))

/-- A concrete one-group, one-badge collection for the C9 counterexample. -/
def c9Group : List (Val × List Val) :=
  [(.str "IBM", [.dict [(.str "id", .str "bid"),
                        (.str "badge_template",
                          .dict [(.str "name", .str "Nm"),
                                 (.str "image_url", .str "http://img")])]])]

/-! ## Properties of the document patcher -/

theorem leadsWith_ex (p : List Char) : ∀ h : List Char, leadsWith p h = true ↔ ∃ t, h = p ++ t := by
  induction p with
  | nil => intro h; simp [leadsWith]
  | cons c cs ih =>
    intro h
    cases h with
    | nil => simp [leadsWith]
    | cons d ds =>
      simp only [leadsWith, List.cons_append, Bool.and_eq_true, beq_iff_eq, ih,
        List.cons.injEq]
      constructor
      · rintro ⟨rfl, t, rfl⟩; exact ⟨t, rfl, rfl⟩
      · rintro ⟨t, rfl, rfl⟩; exact ⟨rfl, t, rfl⟩

theorem strFind_sound (pat : List Char) :
    ∀ (hay : List Char) (i : Nat), strFind hay pat = some i →
      ∃ t, hay.drop i = pat ++ t ∧ i + pat.length ≤ hay.length := by
  intro hay
  induction hay with
  | nil =>
    intro i h
    unfold strFind at h
    by_cases hl : leadsWith pat [] = true
    · rw [if_pos hl] at h
      obtain ⟨t, ht⟩ := (leadsWith_ex pat []).mp hl
      cases h
      refine ⟨t, ht, ?_⟩
      have hlen0 := congrArg List.length ht
      rw [List.length_append] at hlen0
      simp only [List.length_nil] at hlen0 ⊢
      omega
    · rw [if_neg hl] at h; cases h
  | cons c tl ih =>
    intro i h
    unfold strFind at h
    by_cases hl : leadsWith pat (c :: tl) = true
    · rw [if_pos hl] at h
      obtain ⟨t, ht⟩ := (leadsWith_ex pat (c :: tl)).mp hl
      cases h
      refine ⟨t, ht, ?_⟩
      have hlen0 := congrArg List.length ht
      rw [List.length_append] at hlen0
      rw [hlen0]
      omega
    · rw [if_neg hl] at h
      obtain ⟨j, hj, hji⟩ := Option.map_eq_some'.mp h
      obtain ⟨t, ht, hlen⟩ := ih j hj
      subst hji
      refine ⟨t, ht, ?_⟩
      rw [List.length_cons]
      omega

theorem take_of_drop_append (l m t : List Char) (s : Nat)
    (hd : l.drop s = m ++ t) (hsl : s ≤ l.length) :
    l.take (s + m.length) = l.take s ++ m := by
  conv_lhs => rw [← List.take_append_drop s l, hd]
  rw [List.take_append_eq_append_take]
  have h1 : (l.take s).length = s := by rw [List.length_take]; omega
  rw [List.take_take, h1]
  have h2 : min (s + m.length) s = s := by omega
  have h3 : s + m.length - s = m.length := by omega
  rw [h2, h3, List.take_left]

/-- C1: when both markers are found (first occurrences, start before end),
`update_readme` splices exactly `readme[: start + len(START_MARKER)] + "\n" +
section + readme[end:]`: the prefix through the start marker and the suffix
from the end marker are preserved byte-for-byte, and only the region
strictly between the markers is replaced. -/
theorem C1_patch_frame (readme sec : List Char) (s e : Nat)
    (hs : strFind readme START_MARKER = some s)
    (he : strFind readme END_MARKER = some e)
    (hse : s < e) :
    update_readme sec readme =
      (if newContent readme sec s e = readme then PatchResult.noChange
       else PatchResult.written (newContent readme sec s e)) ∧
    readme.take (s + START_MARKER.length) = readme.take s ++ START_MARKER ∧
    (∃ t, readme.drop e = END_MARKER ++ t) ∧
    (newContent readme sec s e).take (s + START_MARKER.length) =
      readme.take (s + START_MARKER.length) ∧
    (newContent readme sec s e).drop (s + START_MARKER.length + 1 + sec.length) =
      readme.drop e := by
  obtain ⟨t, ht, hlen⟩ := strFind_sound START_MARKER readme s hs
  obtain ⟨u, hu, hlenE⟩ := strFind_sound END_MARKER readme e he
  have hsl : s ≤ readme.length := le_trans (Nat.le_add_right s START_MARKER.length) hlen
  have htake : (readme.take (s + START_MARKER.length)).length = s + START_MARKER.length := by
    rw [List.length_take]; omega
  refine ⟨?_, take_of_drop_append readme START_MARKER t s ht hsl, ⟨u, hu⟩, ?_, ?_⟩
  · simp only [update_readme, hs, he]
  · exact List.take_left' htake
  · have hnc : newContent readme sec s e =
        (readme.take (s + START_MARKER.length) ++ '\n' :: sec) ++ readme.drop e := by
      simp [newContent]
    rw [hnc]
    refine List.drop_left' ?_
    simp [htake]
    omega

/-- C2 counterexample (see `outOfOrderDoc`): both markers present but out of
order; the patcher finds start at 27 and end at 0, does not abort, and
produces a write. -/
theorem C2_counterexample :
    strFind outOfOrderDoc START_MARKER = some 27 ∧
    strFind outOfOrderDoc END_MARKER = some 0 ∧
    update_readme "X".data outOfOrderDoc =
      .written (outOfOrderDoc ++ '\n' :: 'X' :: outOfOrderDoc) ∧
    update_readme "X".data outOfOrderDoc ≠ .markerError := by
  refine ⟨rfl, rfl, rfl, ?_⟩
  decide

/-- C2 amended: the patcher aborts without writing exactly in the
missing-marker case — if either marker is absent it signals the fatal
configuration error (exit status 1) and the document is not written; marker
order is not checked. -/
theorem C2_amended_missing_marker_aborts (sec readme : List Char)
    (h : strFind readme START_MARKER = none ∨ strFind readme END_MARKER = none) :
    update_readme sec readme = .markerError ∧
    exitCode (.patched (update_readme sec readme)) = 1 := by
  have hm : update_readme sec readme = .markerError := by
    unfold update_readme
    rcases h with h | h
    · rw [h]
    · rw [h]
      rcases strFind readme START_MARKER with _ | s <;> rfl
  exact ⟨hm, by rw [hm]; rfl⟩

/-- Witness for C2 amended at a concrete document with no markers. -/
theorem C2_amended_witness :
    update_readme "X".data "no markers here".data = .markerError ∧
    exitCode (.patched (update_readme "X".data "no markers here".data)) = 1 :=
  C2_amended_missing_marker_aborts "X".data "no markers here".data (Or.inl rfl)

/-- C3 counterexample: a badge whose `badge_template` is a number makes the
traversal subscript a non-container, which raises `TypeError` — not caught
by `except (KeyError, IndexError)` — so `issuer_name` does propagate an
error for a badge of unexpected nested shape. -/
theorem C3_counterexample :
    issuer_name (.dict [(.str "badge_template", .num 42)]) = .error .typeError := rfl

theorem subscr_no_attr (v k : Val) : subscr v k ≠ .error .attributeError := by
  rcases v with _ | b | n | s | xs | kvs <;> unfold subscr <;>
    (repeat' split) <;> simp

theorem bindE_no_attr (x : Except Exc Val) (f : Val → Except Exc Val)
    (hx : x ≠ .error .attributeError) (hf : ∀ a, f a ≠ .error .attributeError) :
    (x >>= f) ≠ .error .attributeError := by
  cases x with
  | error e => simpa [Bind.bind, Except.bind] using hx
  | ok a => simpa [Bind.bind, Except.bind] using hf a

theorem issuer_chain_no_attr (b : Val) : issuer_chain b ≠ .error .attributeError := by
  unfold issuer_chain
  refine bindE_no_attr _ _ (subscr_no_attr _ _) (fun a1 => ?_)
  refine bindE_no_attr _ _ (subscr_no_attr _ _) (fun a2 => ?_)
  refine bindE_no_attr _ _ (subscr_no_attr _ _) (fun a3 => ?_)
  refine bindE_no_attr _ _ (subscr_no_attr _ _) (fun a4 => ?_)
  refine bindE_no_attr _ _ (subscr_no_attr _ _) (fun a5 => ?_)
  exact subscr_no_attr _ _

/-- C3 amended: `issuer_name` returns the traversed name or the sentinel
"Other" whenever each failing traversal step fails with `KeyError` (missing
dict key) or `IndexError` (index into a too-short list); the only error it
can propagate is `TypeError`, raised when a traversal step hits a value of
unexpected type. -/
theorem C3_amended_issuer_total_or_typeerror :
    (∀ b v, issuer_name b = .ok v → issuer_chain b = .ok v ∨ v = .str "Other") ∧
    (∀ b e, issuer_name b = .error e → e = .typeError) := by
  constructor
  · intro b v h
    unfold issuer_name at h
    rcases hc : issuer_chain b with e' | v' <;> rw [hc] at h
    · cases e' <;> simp_all
    · cases h; exact Or.inl rfl
  · intro b e h
    unfold issuer_name at h
    rcases hc : issuer_chain b with e' | v' <;> rw [hc] at h
    · cases e' with
      | keyError => cases h
      | indexError => cases h
      | typeError => cases h; rfl
      | attributeError => cases h; exact absurd hc (issuer_chain_no_attr b)
    · cases h

/-- Witness for C3 amended: the classifier defaults to "Other" on an empty
badge dict, and propagates `TypeError` on a numeric `badge_template`. -/
theorem C3_amended_witness :
    (issuer_chain (.dict []) = .ok (.str "Other") ∨ Val.str "Other" = .str "Other") ∧
    Exc.typeError = Exc.typeError :=
  ⟨C3_amended_issuer_total_or_typeerror.1 (.dict []) (.str "Other") rfl,
   C3_amended_issuer_total_or_typeerror.2 (.dict [(.str "badge_template", .num 42)]) .typeError rfl⟩

/-- C7: (1) when the spliced content is byte-identical to the document,
`update_readme` takes the no-write "No changes needed" path; (2) therefore a
second run over the freshly written document — whose first marker
occurrences delimit exactly the just-inserted newline-plus-section — is a
no-op. -/
theorem C7_idempotent :
    (∀ readme sec s e, strFind readme START_MARKER = some s →
      strFind readme END_MARKER = some e →
      newContent readme sec s e = readme →
      update_readme sec readme = .noChange) ∧
    (∀ readme sec nc s' e', update_readme sec readme = .written nc →
      strFind nc START_MARKER = some s' →
      strFind nc END_MARKER = some e' →
      e' = s' + START_MARKER.length + 1 + sec.length →
      (nc.drop (s' + START_MARKER.length)).take (1 + sec.length) = '\n' :: sec →
      update_readme sec nc = .noChange) := by
  constructor
  · intro readme sec s e hs he heq
    simp only [update_readme, hs, he]
    rw [if_pos heq]
  · intro readme sec nc s' e' hw hs he hee htk
    have hnc : newContent nc sec s' e' = nc := by
      unfold newContent
      conv_rhs => rw [← List.take_append_drop (s' + START_MARKER.length) nc]
      congr 1
      conv_rhs => rw [← List.take_append_drop (1 + sec.length)
        (nc.drop (s' + START_MARKER.length)), htk]
      rw [List.drop_drop]
      have h2 : s' + START_MARKER.length + (1 + sec.length) = e' := by omega
      rw [h2]
      simp
    simp only [update_readme, hs, he]
    rw [if_pos hnc]

/-- Witness for C1 at a concrete document: markers at 0 and 31, splice shape
as stated. -/
theorem C1_patch_frame_witness :
    update_readme "NEW".data wDocOld =
      (if newContent wDocOld "NEW".data 0 31 = wDocOld then PatchResult.noChange
       else PatchResult.written (newContent wDocOld "NEW".data 0 31)) ∧
    wDocOld.take (0 + START_MARKER.length) = wDocOld.take 0 ++ START_MARKER ∧
    (∃ t, wDocOld.drop 31 = END_MARKER ++ t) ∧
    (newContent wDocOld "NEW".data 0 31).take (0 + START_MARKER.length) =
      wDocOld.take (0 + START_MARKER.length) ∧
    (newContent wDocOld "NEW".data 0 31).drop (0 + START_MARKER.length + 1 + "NEW".data.length) =
      wDocOld.drop 31 :=
  C1_patch_frame wDocOld "NEW".data 0 31 rfl rfl (by decide)

/-- Witness for C7: the first run writes `wDocNew`; splicing `wDocNew` again
with the same section reproduces it, so the second run is a no-op (both
conjuncts of C7 applied at the concrete run). -/
theorem C7_idempotent_witness :
    update_readme "NEW".data wDocNew = .noChange ∧
    update_readme "NEW".data wDocNew = .noChange :=
  ⟨C7_idempotent.1 wDocNew "NEW".data 0 32 rfl rfl rfl,
   C7_idempotent.2 wDocOld "NEW".data wDocNew 0 32 rfl rfl rfl rfl rfl⟩

/-- C8: when fetching raises (any exception: network error, timeout, bad
JSON, missing "data" key), `main` takes the warning path, exits with status
0, and the document is left byte-identical (it is never even opened on this
path). -/
theorem C8_fetch_failure_safe (msg : String) (readme : List Char) :
    mainRun (.error msg) readme = .fetchWarned ∧
    exitCode (mainRun (.error msg) readme) = 0 ∧
    finalDoc readme (mainRun (.error msg) readme) = readme :=
  ⟨rfl, rfl, rfl⟩

/-! ## Generic facts about the stable insertion sort -/

theorem mem_insertOrdered {α : Type} (r : α → α → Bool) (x : α) (l : List α) (a : α) :
    a ∈ insertOrdered r x l ↔ a = x ∨ a ∈ l := by
  induction l with
  | nil => simp [insertOrdered]
  | cons y ys ih =>
    unfold insertOrdered
    by_cases h : r x y = true
    · simp [h]
    · simp [h, ih]
      tauto

theorem perm_insertOrdered {α : Type} (r : α → α → Bool) (x : α) (l : List α) :
    (insertOrdered r x l).Perm (x :: l) := by
  induction l with
  | nil => simp [insertOrdered]
  | cons y ys ih =>
    unfold insertOrdered
    by_cases h : r x y = true
    · simp [h]
    · rw [if_neg h]
      exact (ih.cons y).trans (List.Perm.swap x y ys)

theorem perm_insertionSortBy {α : Type} (r : α → α → Bool) (l : List α) :
    (insertionSortBy r l).Perm l := by
  induction l with
  | nil => exact List.Perm.refl _
  | cons x xs ih => exact (perm_insertOrdered r x _).trans (ih.cons x)

theorem pairwise_insertOrdered {α : Type} (r : α → α → Bool) (x : α) (l : List α)
    (hl : l.Pairwise (fun a b => r a b = true))
    (htot : ∀ b ∈ l, r x b = true ∨ r b x = true)
    (htrans : ∀ b ∈ l, ∀ c ∈ l, r x b = true → r b c = true → r x c = true) :
    (insertOrdered r x l).Pairwise (fun a b => r a b = true) := by
  induction l with
  | nil => simp [insertOrdered]
  | cons y ys ih =>
    unfold insertOrdered
    rcases List.pairwise_cons.mp hl with ⟨hy, hys⟩
    by_cases h : r x y = true
    · rw [if_pos h]
      refine List.Pairwise.cons ?_ hl
      intro b hb
      rcases List.mem_cons.mp hb with rfl | hb2
      · exact h
      · exact htrans y (List.mem_cons_self y ys) b (List.mem_cons_of_mem y hb2) h (hy b hb2)
    · rw [if_neg h]
      refine List.Pairwise.cons ?_ (ih hys ?_ ?_)
      · intro b hb
        rw [mem_insertOrdered] at hb
        rcases hb with rfl | hb2
        · rcases htot y (List.mem_cons_self y ys) with hxy | hyx
          · exact absurd hxy h
          · exact hyx
        · exact hy b hb2
      · intro b hb
        exact htot b (List.mem_cons_of_mem y hb)
      · intro b hb c hc hxb hbc
        exact htrans b (List.mem_cons_of_mem y hb) c (List.mem_cons_of_mem y hc) hxb hbc

theorem pairwise_insertionSortBy {α : Type} (r : α → α → Bool) (l : List α)
    (htot : ∀ a ∈ l, ∀ b ∈ l, r a b = true ∨ r b a = true)
    (htrans : ∀ a ∈ l, ∀ b ∈ l, ∀ c ∈ l, r a b = true → r b c = true → r a c = true) :
    (insertionSortBy r l).Pairwise (fun a b => r a b = true) := by
  induction l with
  | nil => simp [insertionSortBy]
  | cons x xs ih =>
    unfold insertionSortBy
    have hmem : ∀ a, a ∈ insertionSortBy r xs → a ∈ xs :=
      fun a ha => (perm_insertionSortBy r xs).subset ha
    refine pairwise_insertOrdered r x _ ?_ ?_ ?_
    · exact ih
        (fun a ha b hb => htot a (List.mem_cons_of_mem x ha) b (List.mem_cons_of_mem x hb))
        (fun a ha b hb c hc => htrans a (List.mem_cons_of_mem x ha) b
          (List.mem_cons_of_mem x hb) c (List.mem_cons_of_mem x hc))
    · intro b hb
      exact htot x (List.mem_cons_self x xs) b (List.mem_cons_of_mem x (hmem b hb))
    · intro b hb c hc
      exact htrans x (List.mem_cons_self x xs) b (List.mem_cons_of_mem x (hmem b hb)) c
        (List.mem_cons_of_mem x (hmem c hc))

theorem filter_insertOrdered_neg {α : Type} (r : α → α → Bool) (q : α → Bool) (x : α)
    (l : List α) (hx : q x = false) :
    (insertOrdered r x l).filter q = l.filter q := by
  induction l with
  | nil => simp [insertOrdered, hx]
  | cons y ys ih =>
    unfold insertOrdered
    by_cases h : r x y = true
    · simp [h, List.filter_cons, hx]
    · simp [h, List.filter_cons, ih]

theorem filter_insertOrdered_pos {α : Type} (r : α → α → Bool) (q : α → Bool) (x : α)
    (l : List α) (hx : q x = true) (hq : ∀ b ∈ l, q b = true → r x b = true) :
    (insertOrdered r x l).filter q = x :: l.filter q := by
  induction l with
  | nil => simp [insertOrdered, hx]
  | cons y ys ih =>
    unfold insertOrdered
    by_cases h : r x y = true
    · simp [h, List.filter_cons, hx]
    · rw [if_neg h]
      have hqy : q y = false := by
        cases hq2 : q y with
        | false => rfl
        | true => exact absurd (hq y (List.mem_cons_self y ys) hq2) h
      rw [List.filter_cons, List.filter_cons, hqy]
      simp only [Bool.false_eq_true, if_false]
      exact ih (fun b hb hqb => hq b (List.mem_cons_of_mem y hb) hqb)

theorem filter_insertionSortBy {α : Type} (r : α → α → Bool) (q : α → Bool) (l : List α)
    (h : ∀ a ∈ l, ∀ b ∈ l, q a = true → q b = true → r a b = true) :
    (insertionSortBy r l).filter q = l.filter q := by
  induction l with
  | nil => rfl
  | cons x xs ih =>
    unfold insertionSortBy
    have ihx := ih (fun a ha b hb => h a (List.mem_cons_of_mem x ha) b (List.mem_cons_of_mem x hb))
    cases hqx : q x with
    | false =>
      rw [filter_insertOrdered_neg r q x _ hqx, ihx, List.filter_cons, hqx]
      simp
    | true =>
      rw [filter_insertOrdered_pos r q x _ hqx ?_, ihx, List.filter_cons, hqx]
      · simp
      · intro b hb hqb
        exact h x (List.mem_cons_self x xs) b
          (List.mem_cons_of_mem x ((perm_insertionSortBy r xs).subset hb)) hqx hqb

/-! ## The lexicographic string order is a strict total order -/

theorem char_toNat_inj (a b : Char) (h : a.toNat = b.toNat) : a = b := by
  have hv : a.val = b.val := UInt32.toNat.inj h
  cases a; cases b; simp_all

theorem lexLt_irrefl : ∀ l : List Char, lexLt l l = false := by
  intro l
  induction l with
  | nil => rfl
  | cons c cs ih => simp [lexLt, ih]

theorem lexLt_asymm (a : List Char) : ∀ b, lexLt a b = true → lexLt b a = false := by
  induction a with
  | nil =>
    intro b h
    cases b with
    | nil => simp [lexLt] at h
    | cons d ds => rfl
  | cons c cs ih =>
    intro b h
    cases b with
    | nil => simp [lexLt] at h
    | cons d ds =>
      unfold lexLt at h ⊢
      by_cases h1 : c.toNat < d.toNat
      · simp [h1, show ¬(d.toNat < c.toNat) by omega]
      · by_cases h2 : d.toNat < c.toNat
        · simp [h1, h2] at h
        · simp only [h1, h2, if_false] at h
          simp [h1, h2, ih ds h]

theorem lexLt_neg_trans (a : List Char) :
    ∀ b c, lexLt a b = false → lexLt b c = false → lexLt a c = false := by
  induction a with
  | nil =>
    intro b c h1 h2
    cases b with
    | nil =>
      cases c with
      | nil => rfl
      | cons z zs => simp [lexLt] at h2
    | cons y ys => simp [lexLt] at h1
  | cons x xs ih =>
    intro b c h1 h2
    cases b with
    | nil =>
      cases c with
      | nil => rfl
      | cons z zs => simp [lexLt] at h2
    | cons y ys =>
      cases c with
      | nil => rfl
      | cons z zs =>
        unfold lexLt at h1 h2 ⊢
        by_cases hxy : x.toNat < y.toNat
        · simp [hxy] at h1
        · by_cases hyz : y.toNat < z.toNat
          · simp [hyz] at h2
          · by_cases hyx : y.toNat < x.toNat
            · simp [show ¬(x.toNat < z.toNat) by omega, show z.toNat < x.toNat by omega]
            · by_cases hzy : z.toNat < y.toNat
              · simp [show ¬(x.toNat < z.toNat) by omega, show z.toNat < x.toNat by omega]
              · simp only [hxy, hyx, if_false] at h1
                simp only [hyz, hzy, if_false] at h2
                simp [show ¬(x.toNat < z.toNat) by omega, show ¬(z.toNat < x.toNat) by omega,
                  ih ys zs h1 h2]

theorem lexLt_conn (a : List Char) : ∀ b, lexLt a b = false → lexLt b a = false → a = b := by
  induction a with
  | nil =>
    intro b h1 h2
    cases b with
    | nil => rfl
    | cons y ys => simp [lexLt] at h1
  | cons x xs ih =>
    intro b h1 h2
    cases b with
    | nil => simp [lexLt] at h2
    | cons y ys =>
      unfold lexLt at h1 h2
      by_cases hxy : x.toNat < y.toNat
      · simp [hxy] at h1
      · by_cases hyx : y.toNat < x.toNat
        · simp [hyx] at h2
        · have hx : x = y := char_toNat_inj x y (by omega)
          simp only [hxy, hyx, if_false] at h1 h2
          rw [hx, ih ys h1 h2]

/-! ## Scalar key equality -/

theorem pyEq_toKey (a b : Val) (ha : hashable a = true) (hb : hashable b = true) :
    pyEq a b = true ↔ toKey a = toKey b := by
  rcases a with _ | xa | na | sa | la | da <;> rcases b with _ | xb | nb | sb | lb | db <;>
    simp_all [pyEq, toKey, hashable] <;>
    try (cases xa <;> cases xb <;> simp)

theorem pyEq_refl_hash (v : Val) (hv : hashable v = true) : pyEq v v = true :=
  (pyEq_toKey v v hv hv).mpr rfl

theorem pyEq_str_iff (a : String) (x : Val) : pyEq (.str a) x = true ↔ x = .str a := by
  cases x <;> simp [pyEq]
  exact comm

theorem pyEq_str_iff_right (a : String) (x : Val) : pyEq x (.str a) = true ↔ x = .str a := by
  cases x <;> simp [pyEq]

/-! ## The grouping loop invariant -/

theorem setdefaultAppend_char (v b : Val) (hv : hashable v = true) :
    ∀ (G : List (Val × List Val)),
    (∀ k ∈ G.map Prod.fst, hashable k = true) →
    ((G.map Prod.fst).Pairwise (fun k1 k2 => toKey k1 ≠ toKey k2)) →
    ((∀ e ∈ setdefaultAppend G v b,
        (e ∈ G ∧ pyEq v e.1 = false) ∨
        (∃ g0, (e.1, g0) ∈ G ∧ e.2 = g0 ++ [b] ∧ pyEq v e.1 = true) ∨
        (e = (v, [b]) ∧ ∀ k ∈ G.map Prod.fst, pyEq v k = false)) ∧
     ((∃ k ∈ G.map Prod.fst, pyEq v k = true) →
        (setdefaultAppend G v b).map Prod.fst = G.map Prod.fst) ∧
     ((∀ k ∈ G.map Prod.fst, pyEq v k = false) →
        (setdefaultAppend G v b).map Prod.fst = G.map Prod.fst ++ [v])) := by
  intro G
  induction G with
  | nil =>
    intro _ _
    refine ⟨?_, ?_, ?_⟩
    · intro e he
      simp only [setdefaultAppend, List.mem_singleton] at he
      subst he
      exact Or.inr (Or.inr ⟨rfl, by simp⟩)
    · rintro ⟨k, hk, _⟩
      simp at hk
    · intro _
      simp [setdefaultAppend]
  | cons hd rest ih =>
    rcases hd with ⟨k0, g0⟩
    intro hkh hdist
    have hk0 : hashable k0 = true := hkh k0 (by simp)
    have hkhr : ∀ k ∈ rest.map Prod.fst, hashable k = true := fun k hk => hkh k (by simp [hk])
    rw [List.map_cons] at hdist
    have hdr : (rest.map Prod.fst).Pairwise (fun k1 k2 => toKey k1 ≠ toKey k2) :=
      (List.pairwise_cons.mp hdist).2
    have hd0 : ∀ k ∈ rest.map Prod.fst, toKey k0 ≠ toKey k :=
      (List.pairwise_cons.mp hdist).1
    by_cases hpe : pyEq v k0 = true
    · have hsd : setdefaultAppend ((k0, g0) :: rest) v b = (k0, g0 ++ [b]) :: rest := by
        unfold setdefaultAppend
        rw [if_pos hpe]
      refine ⟨?_, ?_, ?_⟩
      · intro e he
        rw [hsd] at he
        rcases List.mem_cons.mp he with rfl | he2
        · exact Or.inr (Or.inl ⟨g0, by simp, rfl, hpe⟩)
        · refine Or.inl ⟨List.mem_cons_of_mem _ he2, ?_⟩
          have hkv : toKey v = toKey k0 := (pyEq_toKey v k0 hv hk0).mp hpe
          have he1 : e.1 ∈ rest.map Prod.fst := List.mem_map_of_mem Prod.fst he2
          have hne : toKey k0 ≠ toKey e.1 := hd0 e.1 he1
          cases hq : pyEq v e.1 with
          | false => rfl
          | true =>
            have h2 := (pyEq_toKey v e.1 hv (hkhr e.1 he1)).mp hq
            exact absurd (hkv.symm.trans h2) hne
      · intro _
        rw [hsd]
        simp
      · intro hall
        exact absurd hpe (by simp [hall k0 (by simp)])
    · have hsd : setdefaultAppend ((k0, g0) :: rest) v b =
          (k0, g0) :: setdefaultAppend rest v b := by
        conv_lhs => unfold setdefaultAppend
        rw [if_neg hpe]
      have hpe' : pyEq v k0 = false := by
        cases hq : pyEq v k0 with
        | false => rfl
        | true => exact absurd hq hpe
      obtain ⟨ih1, ih2, ih3⟩ := ih hkhr hdr
      refine ⟨?_, ?_, ?_⟩
      · intro e he
        rw [hsd] at he
        rcases List.mem_cons.mp he with rfl | he2
        · exact Or.inl ⟨by simp, hpe'⟩
        · rcases ih1 e he2 with ⟨hmem, hfalse⟩ | ⟨g1, hmem, heq, htrue⟩ | ⟨heq, hall⟩
          · exact Or.inl ⟨List.mem_cons_of_mem _ hmem, hfalse⟩
          · exact Or.inr (Or.inl ⟨g1, List.mem_cons_of_mem _ hmem, heq, htrue⟩)
          · refine Or.inr (Or.inr ⟨heq, ?_⟩)
            intro k hk
            rw [List.map_cons] at hk
            rcases List.mem_cons.mp hk with rfl | hk2
            · exact hpe'
            · exact hall k hk2
      · rintro ⟨k, hk, hkt⟩
        rw [hsd]
        simp only [List.map_cons]
        rw [List.map_cons] at hk
        rcases List.mem_cons.mp hk with rfl | hk2
        · exact absurd hkt hpe
        · rw [ih2 ⟨k, hk2, hkt⟩]
      · intro hall
        rw [hsd]
        simp only [List.map_cons]
        rw [ih3 (fun k hk => hall k (by simp [hk])), List.cons_append]

theorem accInv_step (ps : List Val) (G : List (Val × List Val)) (b v : Val)
    (hv : issuer_name b = .ok v) (hh : hashable v = true) (hI : AccInv ps G) :
    AccInv (ps ++ [b]) (setdefaultAppend G v b) := by
  obtain ⟨ha, hb', hc, hd, he, hg⟩ := hI
  obtain ⟨s1, s2, s3⟩ := setdefaultAppend_char v b hh G hd hc
  have hmb : ∀ k, issuerMB b k = pyEq v k := by
    intro k
    unfold issuerMB
    rw [hv]
  have hkeys : (setdefaultAppend G v b).map Prod.fst = G.map Prod.fst ∨
      (setdefaultAppend G v b).map Prod.fst = G.map Prod.fst ++ [v] := by
    by_cases hmatch : ∃ k ∈ G.map Prod.fst, pyEq v k = true
    · exact Or.inl (s2 hmatch)
    · refine Or.inr (s3 ?_)
      intro k hk
      cases hq : pyEq v k with
      | false => rfl
      | true => exact absurd ⟨k, hk, hq⟩ hmatch
  have hpsfalse : (∀ k ∈ G.map Prod.fst, pyEq v k = false) →
      ∀ p ∈ ps, issuerMB p v = false := by
    intro hall p hp
    obtain ⟨w, hw, hwh, k, hk, hwk⟩ := hb' p hp
    have hmb2 : issuerMB p v = pyEq w v := by
      unfold issuerMB
      rw [hw]
    rw [hmb2]
    cases hq : pyEq w v with
    | false => rfl
    | true =>
      have h1 : toKey w = toKey v := (pyEq_toKey w v hwh hh).mp hq
      have h2 : toKey w = toKey k := (pyEq_toKey w k hwh (hd k hk)).mp hwk
      have h3 : pyEq v k = true := (pyEq_toKey v k hh (hd k hk)).mpr (h1.symm.trans h2)
      exact absurd h3 (by simp [hall k hk])
  refine ⟨?_, ?_, ?_, ?_, ?_, ?_⟩
  · intro e he2
    rw [List.filter_append]
    rcases s1 e he2 with ⟨hmem, hfalse⟩ | ⟨g1, hmem, heq, htrue⟩ | ⟨heq, hall⟩
    · rw [ha e hmem]
      simp [List.filter_cons, hmb, hfalse]
    · have := ha (e.1, g1) hmem
      simp only at this
      rw [heq, this]
      simp [List.filter_cons, hmb, htrue]
    · subst heq
      simp only
      have hps : ps.filter (fun p => issuerMB p v) = [] := by
        rw [List.filter_eq_nil_iff]
        intro p hp
        simp [hpsfalse hall p hp]
      rw [hps]
      simp [List.filter_cons, hmb, pyEq_refl_hash v hh]
  · intro p hp
    rcases List.mem_append.mp hp with hp2 | hp2
    · obtain ⟨w, hw, hwh, k, hk, hwk⟩ := hb' p hp2
      refine ⟨w, hw, hwh, k, ?_, hwk⟩
      rcases hkeys with hk2 | hk2 <;> rw [hk2]
      · exact hk
      · exact List.mem_append.mpr (Or.inl hk)
    · have hpb : p = b := by simpa using hp2
      subst hpb
      refine ⟨v, hv, hh, ?_⟩
      by_cases hmatch : ∃ k ∈ G.map Prod.fst, pyEq v k = true
      · obtain ⟨k, hk, hkt⟩ := hmatch
        refine ⟨k, ?_, hkt⟩
        rw [s2 ⟨k, hk, hkt⟩]
        exact hk
      · have hall : ∀ k ∈ G.map Prod.fst, pyEq v k = false := by
          intro k hk
          cases hq : pyEq v k with
          | false => rfl
          | true => exact absurd ⟨k, hk, hq⟩ hmatch
        refine ⟨v, ?_, pyEq_refl_hash v hh⟩
        rw [s3 hall]
        simp
  · rcases hkeys with hk2 | hk2 <;> rw [hk2]
    · exact hc
    · rw [List.pairwise_append]
      refine ⟨hc, by simp, ?_⟩
      intro k hk w hw
      have hw2 : w = v := by simpa using hw
      rw [hw2]
      have hall : ∀ k2 ∈ G.map Prod.fst, pyEq v k2 = false := by
        intro k2 hk2'
        by_contra hq
        have hq2 : pyEq v k2 = true := by
          cases hq3 : pyEq v k2 with
          | false => exact absurd hq3 hq
          | true => rfl
        have := s2 ⟨k2, hk2', hq2⟩
        rw [this] at hk2
        have h4 := congrArg List.length hk2
        simp at h4
      have h5 : pyEq v k = false := hall k hk
      intro h6
      have h7 : pyEq v k = true := (pyEq_toKey v k hh (hd k hk)).mpr h6.symm
      rw [h7] at h5
      cases h5
  · intro k hk
    rcases hkeys with hk2 | hk2 <;> rw [hk2] at hk
    · exact hd k hk
    · rcases List.mem_append.mp hk with hk3 | hk3
      · exact hd k hk3
      · have : k = v := by simpa using hk3
        subst this
        exact hh
  · intro e he2
    rcases s1 e he2 with ⟨hmem, _⟩ | ⟨g1, _, heq, _⟩ | ⟨heq, _⟩
    · exact he e hmem
    · rw [heq]
      simp
    · subst heq
      simp
  · intro k hk
    rcases hkeys with hk2 | hk2 <;> rw [hk2] at hk
    · obtain ⟨p, hp, hpk⟩ := hg k hk
      exact ⟨p, List.mem_append.mpr (Or.inl hp), hpk⟩
    · rcases List.mem_append.mp hk with hk3 | hk3
      · obtain ⟨p, hp, hpk⟩ := hg k hk3
        exact ⟨p, List.mem_append.mpr (Or.inl hp), hpk⟩
      · have : k = v := by simpa using hk3
        subst this
        exact ⟨b, List.mem_append.mpr (Or.inr (by simp)), hv⟩

theorem accumulate_cons_err (b : Val) (rest : List Val) (G : List (Val × List Val))
    (e : Exc) (hv : issuer_name b = .error e) :
    accumulate (b :: rest) G = .error e := by
  unfold accumulate
  rw [hv]

theorem accumulate_cons_ok (b : Val) (rest : List Val) (G : List (Val × List Val))
    (v : Val) (hv : issuer_name b = .ok v) :
    accumulate (b :: rest) G =
      (if hashable v then accumulate rest (setdefaultAppend G v b)
       else .error .typeError) := by
  conv_lhs => unfold accumulate
  rw [hv]

theorem accumulate_invariant : ∀ (bs ps : List Val) (G out : List (Val × List Val)),
    accumulate bs G = .ok out → AccInv ps G → AccInv (ps ++ bs) out := by
  intro bs
  induction bs with
  | nil =>
    intro ps G out h hI
    unfold accumulate at h
    cases h
    simpa using hI
  | cons b rest ih =>
    intro ps G out h hI
    rcases hv : issuer_name b with e | v
    · rw [accumulate_cons_err b rest G e hv] at h
      cases h
    · rw [accumulate_cons_ok b rest G v hv] at h
      by_cases hh : hashable v = true
      · rw [if_pos hh] at h
        have h2 := ih (ps ++ [b]) _ out h (accInv_step ps G b v hv hh hI)
        rw [List.append_assoc] at h2
        simpa using h2
      · rw [if_neg hh] at h
        cases h

theorem flatten_setdefaultAppend (G : List (Val × List Val)) (v b : Val) :
    (((setdefaultAppend G v b).map Prod.snd).flatten).Perm
      (((G.map Prod.snd).flatten) ++ [b]) := by
  induction G with
  | nil => simp [setdefaultAppend]
  | cons hd rest ih =>
    rcases hd with ⟨k0, g0⟩
    by_cases h : pyEq v k0 = true
    · have hsd : setdefaultAppend ((k0, g0) :: rest) v b = (k0, g0 ++ [b]) :: rest := by
        conv_lhs => unfold setdefaultAppend
        rw [if_pos h]
      rw [hsd]
      simp only [List.map_cons, List.flatten_cons]
      rw [List.append_assoc, List.append_assoc]
      exact List.Perm.append_left g0 List.perm_append_comm
    · have hsd : setdefaultAppend ((k0, g0) :: rest) v b =
          (k0, g0) :: setdefaultAppend rest v b := by
        conv_lhs => unfold setdefaultAppend
        rw [if_neg h]
      rw [hsd]
      simp only [List.map_cons, List.flatten_cons]
      rw [List.append_assoc]
      exact List.Perm.append_left g0 ih

theorem flatten_accumulate : ∀ (bs : List Val) (G out : List (Val × List Val)),
    accumulate bs G = .ok out →
    ((out.map Prod.snd).flatten).Perm (((G.map Prod.snd).flatten) ++ bs) := by
  intro bs
  induction bs with
  | nil =>
    intro G out h
    unfold accumulate at h
    cases h
    simp
  | cons b rest ih =>
    intro G out h
    rcases hv : issuer_name b with e | v
    · rw [accumulate_cons_err b rest G e hv] at h
      cases h
    · rw [accumulate_cons_ok b rest G v hv] at h
      by_cases hh : hashable v = true
      · rw [if_pos hh] at h
        refine (ih _ out h).trans ?_
        refine ((flatten_setdefaultAppend G v b).append_right rest).trans ?_
        rw [List.append_assoc]
        simp
      · rw [if_neg hh] at h
        cases h

/-! ## Characterising the per-group sort and the reordering pass -/

theorem sortGroup_ok (grp out : List Val) (h : sortGroup grp = .ok out) :
    out = insertionSortBy groupSortRel grp := by
  unfold sortGroup at h
  by_cases h1 : grp.all isDict = true
  · rw [if_pos h1] at h
    by_cases h2 : allPairsComp (grp.map dateKey) = true
    · rw [if_pos h2] at h
      cases h
      rfl
    · rw [if_neg h2] at h
      cases h
  · rw [if_neg h1] at h
    cases h

theorem sortEach_char : ∀ (G out : List (Val × List Val)), sortEach G = .ok out →
    List.Forall₂ (fun e e2 => e2.1 = e.1 ∧ e2.2 = insertionSortBy groupSortRel e.2) G out := by
  intro G
  induction G with
  | nil =>
    intro out h
    unfold sortEach at h
    cases h
    exact List.Forall₂.nil
  | cons e rest ih =>
    intro out h
    unfold sortEach at h
    rcases hsg : sortGroup e.2 with err | g2 <;>
      simp only [hsg, Bind.bind, Except.bind] at h
    · cases h
    · rcases hrest : sortEach rest with err | outRest <;> rw [hrest] at h
      · cases h
      · cases h
        exact List.Forall₂.cons ⟨rfl, sortGroup_ok e.2 g2 hsg⟩ (ih outRest hrest)

theorem sortEach_keys (G out : List (Val × List Val)) (h : sortEach G = .ok out) :
    out.map Prod.fst = G.map Prod.fst := by
  have hf := sortEach_char G out h
  clear h
  induction hf with
  | nil => rfl
  | cons he _ ih2 => simp [ih2, he.1]

theorem sortEach_flatten_perm (G out : List (Val × List Val)) (h : sortEach G = .ok out) :
    ((out.map Prod.snd).flatten).Perm ((G.map Prod.snd).flatten) := by
  have hf := sortEach_char G out h
  clear h
  induction hf with
  | nil => exact List.Perm.refl _
  | cons he _ ih2 =>
    simp only [List.map_cons, List.flatten_cons]
    refine List.Perm.append ?_ ih2
    rw [he.2]
    exact perm_insertionSortBy _ _

theorem sortEach_mem (G out : List (Val × List Val)) (h : sortEach G = .ok out) :
    ∀ e2 ∈ out, ∃ e ∈ G, e2.1 = e.1 ∧ e2.2 = insertionSortBy groupSortRel e.2 := by
  have hf := sortEach_char G out h
  clear h
  induction hf with
  | nil => intro e2 he2; cases he2
  | cons he _ ih2 =>
    intro e2 he2
    rcases List.mem_cons.mp he2 with rfl | he3
    · exact ⟨_, List.mem_cons_self _ _, he.1, he.2⟩
    · obtain ⟨e0, he0, h1, h2⟩ := ih2 e2 he3
      exact ⟨e0, List.mem_cons_of_mem _ he0, h1, h2⟩

theorem dlookupEntry_cons (k0 : Val) (g0 : List Val) (rest : List (Val × List Val)) (k : Val) :
    dlookupEntry ((k0, g0) :: rest) k =
      if pyEq k k0 then some g0 else dlookupEntry rest k := rfl

theorem removeEntry_cons (k0 : Val) (g0 : List Val) (rest : List (Val × List Val)) (k : Val) :
    removeEntry ((k0, g0) :: rest) k =
      if pyEq k k0 then rest else (k0, g0) :: removeEntry rest k := rfl

theorem dlookupEntry_none_iff (k : Val) : ∀ G : List (Val × List Val),
    dlookupEntry G k = none ↔ ∀ e ∈ G, pyEq k e.1 = false := by
  intro G
  induction G with
  | nil => simp [dlookupEntry]
  | cons hd rest ih =>
    rcases hd with ⟨k0, g0⟩
    unfold dlookupEntry
    by_cases h : pyEq k k0 = true
    · simp [h]
    · have h2 : pyEq k k0 = false := by
        cases hq : pyEq k k0 with
        | false => rfl
        | true => exact absurd hq h
      simp [h, ih, h2]

theorem dlookupEntry_str_mem (n : String) : ∀ (G : List (Val × List Val)) (g0 : List Val),
    dlookupEntry G (.str n) = some g0 →
    (Val.str n, g0) ∈ G ∧ G.Perm ((Val.str n, g0) :: removeEntry G (.str n)) := by
  intro G
  induction G with
  | nil => intro g0 h; cases h
  | cons hd rest ih =>
    rcases hd with ⟨k0, gg⟩
    intro g0 h
    unfold dlookupEntry at h
    by_cases hp : pyEq (.str n) k0 = true
    · rw [if_pos hp] at h
      cases h
      have hk : k0 = .str n := (pyEq_str_iff n k0).mp hp
      subst hk
      have hre : removeEntry ((Val.str n, gg) :: rest) (.str n) = rest := by
        unfold removeEntry
        rw [if_pos hp]
      rw [hre]
      exact ⟨List.mem_cons_self _ _, List.Perm.refl _⟩
    · rw [if_neg hp] at h
      obtain ⟨hmem, hperm⟩ := ih g0 h
      have hre : removeEntry ((k0, gg) :: rest) (.str n) =
          (k0, gg) :: removeEntry rest (.str n) := by
        rw [removeEntry_cons, if_neg hp]
      rw [hre]
      exact ⟨List.mem_cons_of_mem _ hmem,
        (hperm.cons (k0, gg)).trans
          (List.Perm.swap (Val.str n, g0) (k0, gg) (removeEntry rest (Val.str n)))⟩

theorem removeEntry_sublist (k : Val) : ∀ G : List (Val × List Val),
    (removeEntry G k).Sublist G := by
  intro G
  induction G with
  | nil => exact List.Sublist.refl _
  | cons hd rest ih =>
    rcases hd with ⟨k0, g0⟩
    unfold removeEntry
    by_cases h : pyEq k k0 = true
    · rw [if_pos h]
      exact List.sublist_cons_self _ _
    · rw [if_neg h]
      exact ih.cons₂ _

theorem dlookupEntry_remove_other (n n2 : String) (hne : n ≠ n2) :
    ∀ G : List (Val × List Val),
    dlookupEntry (removeEntry G (.str n)) (.str n2) = dlookupEntry G (.str n2) := by
  intro G
  induction G with
  | nil => rfl
  | cons hd rest ih =>
    rcases hd with ⟨k0, g0⟩
    rw [removeEntry_cons]
    by_cases hp : pyEq (.str n) k0 = true
    · have hk : k0 = .str n := (pyEq_str_iff n k0).mp hp
      subst hk
      rw [if_pos hp, dlookupEntry_cons]
      have hnm : pyEq (Val.str n2) (Val.str n) = false := by
        simp [pyEq]
        exact fun h => hne h.symm
      rw [if_neg (by simp [hnm])]
    · rw [if_neg hp, dlookupEntry_cons, dlookupEntry_cons]
      by_cases hq : pyEq (.str n2) k0 = true
      · rw [if_pos hq, if_pos hq]
      · rw [if_neg hq, if_neg hq, ih]

theorem popKnown_perm (ns : List String) : ∀ G : List (Val × List Val),
    ((popKnown ns G).1 ++ (popKnown ns G).2).Perm G := by
  induction ns with
  | nil => intro G; exact List.Perm.refl _
  | cons n ns ih =>
    intro G
    unfold popKnown
    rcases hl : dlookupEntry G (.str n) with _ | g0
    · exact ih G
    · simp only
      refine List.Perm.trans ?_ (dlookupEntry_str_mem n G g0 hl).2.symm
      exact (ih (removeEntry G (.str n))).cons (Val.str n, g0)

theorem removeEntry_eq_filter (n : String) : ∀ G : List (Val × List Val),
    ((G.map Prod.fst).Pairwise (fun k1 k2 => toKey k1 ≠ toKey k2)) →
    removeEntry G (.str n) = G.filter (fun e => !(pyEq (.str n) e.1)) := by
  intro G
  induction G with
  | nil => intro _; rfl
  | cons hd rest ih =>
    rcases hd with ⟨k0, g0⟩
    intro hdist
    rw [List.map_cons] at hdist
    obtain ⟨hd0, hdr⟩ := List.pairwise_cons.mp hdist
    by_cases hp : pyEq (.str n) k0 = true
    · have hk : k0 = .str n := (pyEq_str_iff n k0).mp hp
      subst hk
      have hre : removeEntry ((Val.str n, g0) :: rest) (.str n) = rest := by
        unfold removeEntry
        rw [if_pos hp]
      rw [hre, List.filter_cons]
      simp only [hp, Bool.not_true, Bool.false_eq_true, if_false]
      rw [List.filter_eq_self.mpr]
      intro e he
      cases hq : pyEq (.str n) e.1 with
      | false => rfl
      | true =>
        have he1 : e.1 = .str n := (pyEq_str_iff n e.1).mp hq
        have := hd0 e.1 (List.mem_map_of_mem Prod.fst he)
        rw [he1] at this
        exact absurd rfl this
    · have hp2 : pyEq (.str n) k0 = false := by
        cases hq : pyEq (.str n) k0 with
        | false => rfl
        | true => exact absurd hq hp
      have hre : removeEntry ((k0, g0) :: rest) (.str n) =
          (k0, g0) :: removeEntry rest (.str n) := by
        rw [removeEntry_cons, if_neg hp]
      rw [hre, List.filter_cons]
      simp only [hp2, Bool.not_false, if_true]
      rw [ih hdr]

theorem popKnown_rest (ns : List String) : ∀ G : List (Val × List Val),
    ((G.map Prod.fst).Pairwise (fun k1 k2 => toKey k1 ≠ toKey k2)) →
    (popKnown ns G).2 = G.filter (fun e => !(ns.any (fun n => pyEq (.str n) e.1))) := by
  induction ns with
  | nil =>
    intro G _
    simp [popKnown]
  | cons n ns ih =>
    intro G hdist
    unfold popKnown
    rcases hl : dlookupEntry G (.str n) with _ | g0
    · simp only
      rw [ih G hdist]
      refine List.filter_congr ?_
      intro e he
      have := (dlookupEntry_none_iff (.str n) G).mp hl e he
      simp [this]
    · simp only
      have hsub : ((removeEntry G (.str n)).map Prod.fst).Pairwise
          (fun k1 k2 => toKey k1 ≠ toKey k2) :=
        hdist.sublist ((removeEntry_sublist (.str n) G).map Prod.fst)
      rw [ih (removeEntry G (.str n)) hsub, removeEntry_eq_filter n G hdist,
        List.filter_filter]
      refine List.filter_congr ?_
      intro e _
      simp only [List.any_cons, Bool.not_or]
      rw [Bool.and_comm]

theorem popKnown_known (ns : List String) : ∀ G : List (Val × List Val),
    ns.Pairwise (fun a b => a ≠ b) →
    (popKnown ns G).1.map Prod.fst =
      (ns.filter (fun n => (dlookupEntry G (.str n)).isSome)).map Val.str := by
  induction ns with
  | nil =>
    intro G _
    rfl
  | cons n ns ih =>
    intro G hnd
    obtain ⟨hn0, hnr⟩ := List.pairwise_cons.mp hnd
    unfold popKnown
    rcases hl : dlookupEntry G (.str n) with _ | g0
    · rw [List.filter_cons]
      simp only [hl, Option.isSome_none, Bool.false_eq_true, if_false]
      exact ih G hnr
    · rw [List.filter_cons]
      simp only [hl, Option.isSome_some, if_true, List.map_cons]
      rw [ih (removeEntry G (.str n)) hnr]
      congr 1
      refine congrArg _ (List.filter_congr ?_)
      intro n2 hn2
      rw [dlookupEntry_remove_other n n2 (hn0 n2 hn2)]

theorem reorder_char (G out : List (Val × List Val)) (h : reorder G = .ok out) :
    out = (popKnown ISSUER_ORDER G).1 ++
        insertionSortBy entryRel (popKnown ISSUER_ORDER G).2 ∧
    allPairsComp ((popKnown ISSUER_ORDER G).2.map Prod.fst) = true := by
  simp only [reorder] at h
  by_cases hg : allPairsComp ((popKnown ISSUER_ORDER G).2.map Prod.fst) = true
  · rw [if_pos hg] at h
    cases h
    exact ⟨rfl, hg⟩
  · rw [if_neg hg] at h
    cases h

theorem exceptBind_ok {α β : Type} (x : Except Exc α) (f : α → Except Exc β) (b : β)
    (h : (x >>= f) = .ok b) : ∃ a, x = .ok a ∧ f a = .ok b := by
  cases x with
  | error e => simp [Bind.bind, Except.bind] at h
  | ok a => exact ⟨a, rfl, by simpa [Bind.bind, Except.bind] using h⟩

theorem group_badges_decomp (badges : List Val) (g : List (Val × List Val))
    (h : group_badges (.list badges) = .ok g) :
    ∃ G0 G1, accumulate badges [] = .ok G0 ∧ sortEach G0 = .ok G1 ∧ reorder G1 = .ok g := by
  unfold group_badges at h
  obtain ⟨bs, hbs, h⟩ := exceptBind_ok _ _ _ h
  have hbs2 : bs = badges := by
    have h3 : toIter (.list badges) = .ok badges := rfl
    rw [h3] at hbs
    exact (Except.ok.inj hbs).symm
  rw [hbs2] at h
  replace h : (accumulate badges [] >>= fun g0 =>
      sortEach g0 >>= fun g1 => reorder g1) = Except.ok g := h
  obtain ⟨G0, h0, h⟩ := exceptBind_ok _ _ _ h
  replace h : (sortEach G0 >>= fun g1 => reorder g1) = Except.ok g := h
  obtain ⟨G1, h1, h⟩ := exceptBind_ok _ _ _ h
  exact ⟨G0, G1, h0, h1, h⟩

theorem accInv_nil : AccInv [] [] := by
  refine ⟨?_, ?_, ?_, ?_, ?_, ?_⟩ <;> simp

/-! ## C4: grouping is a partition -/

/-- C4: for every input badge sequence that `group_badges` accepts, the
grouped collection holds exactly the input badges (as a permutation of the
flattened groups — no duplication, no loss), and every badge sits in the
group whose key its derived issuer name `==`-matches. -/
theorem C4_grouping_partition (badges : List Val) (g : List (Val × List Val))
    (h : group_badges (.list badges) = .ok g) :
    ((g.map Prod.snd).flatten).Perm badges ∧
    (∀ e ∈ g, ∀ b ∈ e.2, ∃ v, issuer_name b = .ok v ∧ pyEq v e.1 = true) := by
  obtain ⟨G0, G1, h0, h1, h2⟩ := group_badges_decomp badges g h
  have hInv := accumulate_invariant badges [] [] G0 h0 accInv_nil
  rw [List.nil_append] at hInv
  obtain ⟨ia, ib, ic, id', ie', ig⟩ := hInv
  obtain ⟨hout, hcomp⟩ := reorder_char G1 g h2
  have hperm1 : g.Perm G1 := by
    rw [hout]
    refine List.Perm.trans ?_ (popKnown_perm ISSUER_ORDER G1)
    exact List.Perm.append_left _ (perm_insertionSortBy _ _)
  constructor
  · refine List.Perm.trans ((hperm1.map Prod.snd).flatten) ?_
    refine List.Perm.trans (sortEach_flatten_perm G0 G1 h1) ?_
    have h3 := flatten_accumulate badges [] G0 h0
    simpa using h3
  · intro e he b hb
    have heG1 : e ∈ G1 := hperm1.subset he
    obtain ⟨e0, he0, hk, hv⟩ := sortEach_mem G0 G1 h1 e heG1
    have hbmem : b ∈ e0.2 := by
      rw [hv] at hb
      exact (perm_insertionSortBy groupSortRel e0.2).subset hb
    have ha0 := ia e0 he0
    rw [ha0] at hbmem
    have hmm := (List.mem_filter.mp hbmem).2
    rcases hu : issuer_name b with err | v
    · rw [show issuerMB b e0.1 = false from by unfold issuerMB; rw [hu]] at hmm
      cases hmm
    · refine ⟨v, rfl, ?_⟩
      rw [hk]
      have h5 : issuerMB b e0.1 = pyEq v e0.1 := by
        unfold issuerMB
        rw [hu]
      rw [h5] at hmm
      exact hmm

/-- Witness for C4 at the four concrete badges. -/
theorem C4_grouping_partition_witness :
    (((wGroups.map Prod.snd).flatten).Perm [wBadge1, wBadge2, wBadge3, wBadge4]) ∧
    (∀ e ∈ wGroups, ∀ b ∈ e.2, ∃ v, issuer_name b = .ok v ∧ pyEq v e.1 = true) :=
  C4_grouping_partition [wBadge1, wBadge2, wBadge3, wBadge4] wGroups rfl

/-! ## C5: groups are stably sorted by date, descending -/

theorem strDate_eq (b : Val) (s : String) (hd : dateKey b = .str s) : strDate b = s := by
  unfold strDate
  rw [hd]

theorem groupSortRel_str (a b : Val) (sa sb : String)
    (hda : dateKey a = .str sa) (hdb : dateKey b = .str sb) :
    groupSortRel a b = !(lexLt sa.data sb.data) := by
  unfold groupSortRel
  rw [hda, hdb]
  rfl

/-- C5: when every badge's issuance date is a string (as the claim's
"issuance-date string" presumes; a missing date reads as the empty string),
each group is descending by date — for adjacent badges `a` then `b`, `a`'s
date is not less than `b`'s — and the sort is stable: the badges holding any
fixed date appear in the group in exactly their input relative order. -/
theorem C5_group_sorted_desc_stable (badges : List Val) (g : List (Val × List Val))
    (h : group_badges (.list badges) = .ok g)
    (hdates : ∀ b ∈ badges, ∃ s, dateKey b = .str s) :
    ∀ e ∈ g,
      (e.2.Chain' (fun a b => lexLt (strDate a).data (strDate b).data = false)) ∧
      (∀ d : String, e.2.filter (fun b => strDate b == d) =
        (badges.filter (fun b => issuerMB b e.1)).filter (fun b => strDate b == d)) := by
  obtain ⟨G0, G1, h0, h1, h2⟩ := group_badges_decomp badges g h
  have hInv := accumulate_invariant badges [] [] G0 h0 accInv_nil
  rw [List.nil_append] at hInv
  obtain ⟨ia, _, _, _, _, _⟩ := hInv
  obtain ⟨hout, _⟩ := reorder_char G1 g h2
  have hperm1 : g.Perm G1 := by
    rw [hout]
    refine List.Perm.trans ?_ (popKnown_perm ISSUER_ORDER G1)
    exact List.Perm.append_left _ (perm_insertionSortBy _ _)
  intro e he
  have heG1 : e ∈ G1 := hperm1.subset he
  obtain ⟨e0, he0, hk, hv⟩ := sortEach_mem G0 G1 h1 e heG1
  have ha0 := ia e0 he0
  have hmem0 : ∀ b ∈ e0.2, b ∈ badges := by
    intro b hb
    rw [ha0] at hb
    exact (List.mem_filter.mp hb).1
  have hdm : ∀ b ∈ e0.2, ∃ s, dateKey b = .str s := fun b hb => hdates b (hmem0 b hb)
  have hrel : ∀ a ∈ e0.2, ∀ b ∈ e0.2,
      groupSortRel a b = !(lexLt (strDate a).data (strDate b).data) := by
    intro a hA b hB
    obtain ⟨sa, hsa⟩ := hdm a hA
    obtain ⟨sb, hsb⟩ := hdm b hB
    rw [groupSortRel_str a b sa sb hsa hsb, strDate_eq a sa hsa, strDate_eq b sb hsb]
  constructor
  · have hpw := pairwise_insertionSortBy groupSortRel e0.2 ?htot ?htrans
    case htot =>
      intro a hA b hB
      rw [hrel a hA b hB, hrel b hB a hA]
      cases hq : lexLt (strDate a).data (strDate b).data with
      | false => left; rfl
      | true => right; rw [lexLt_asymm _ _ hq]; rfl
    case htrans =>
      intro a hA b hB c hC h1' h2'
      rw [hrel a hA b hB] at h1'
      rw [hrel b hB c hC] at h2'
      rw [hrel a hA c hC]
      simp only [Bool.not_eq_true'] at h1' h2' ⊢
      exact lexLt_neg_trans _ _ _ h1' h2'
    rw [hv]
    refine List.Pairwise.chain' ?_
    refine List.Pairwise.imp_of_mem ?_ hpw
    intro a b hA hB hr
    have hA0 : a ∈ e0.2 := (perm_insertionSortBy groupSortRel e0.2).subset hA
    have hB0 : b ∈ e0.2 := (perm_insertionSortBy groupSortRel e0.2).subset hB
    rw [hrel a hA0 b hB0] at hr
    simpa using hr
  · intro d
    rw [hv, hk]
    rw [filter_insertionSortBy groupSortRel (fun b => strDate b == d) e0.2 ?_]
    · rw [ha0]
    · intro a hA b hB hqa hqb
      rw [hrel a hA b hB]
      have hda : strDate a = d := by simpa using hqa
      have hdb2 : strDate b = d := by simpa using hqb
      rw [hda, hdb2]
      simp [lexLt_irrefl]

/-- Witness for C5: the IBM group of the concrete run is date-descending and
stable at the date of badge 3. -/
theorem C5_group_sorted_desc_stable_witness :
    (([wBadge4, wBadge3] : List Val).Chain'
        (fun a b => lexLt (strDate a).data (strDate b).data = false)) ∧
    (([wBadge4, wBadge3] : List Val).filter (fun b => strDate b == "2022-02-02") =
      (([wBadge1, wBadge2, wBadge3, wBadge4].filter
          (fun b => issuerMB b (.str "IBM"))).filter
        (fun b => strDate b == "2022-02-02"))) := by
  have h := C5_group_sorted_desc_stable [wBadge1, wBadge2, wBadge3, wBadge4] wGroups rfl
      (by
        intro b hb
        simp only [List.mem_cons, List.not_mem_nil, or_false] at hb
        rcases hb with rfl | rfl | rfl | rfl <;> exact ⟨_, rfl⟩)
      (.str "IBM", [wBadge4, wBadge3]) (by simp [wGroups])
  exact ⟨h.1, h.2 "2022-02-02"⟩

/-! ## C6: group ordering — priority issuers first, remainder alphabetical -/

theorem dlookupEntry_isSome_iff (k : Val) : ∀ G : List (Val × List Val),
    (dlookupEntry G k).isSome = true ↔ ∃ e ∈ G, pyEq k e.1 = true := by
  intro G
  induction G with
  | nil => simp [dlookupEntry]
  | cons hd rest ih =>
    rcases hd with ⟨k0, g0⟩
    rw [dlookupEntry_cons]
    by_cases h : pyEq k k0 = true
    · simp [h]
    · have h2 : pyEq k k0 = false := by
        cases hq : pyEq k k0 with
        | false => rfl
        | true => exact absurd hq h
      simp [h2, ih]

/-- The ascending key sort of `sorted(groups.items())`, restricted to
string-keyed, key-distinct entries, yields strictly ascending keys. -/
theorem sorted_entries_chain (l : List (Val × List Val))
    (hstr : ∀ e ∈ l, ∃ s, e.1 = Val.str s)
    (hdist : (l.map Prod.fst).Pairwise (fun k1 k2 => toKey k1 ≠ toKey k2)) :
    ((insertionSortBy entryRel l).map Prod.fst).Chain'
      (fun k1 k2 => pyLt k1 k2 = .ok true) := by
  have hperm := perm_insertionSortBy entryRel l
  have hmem : ∀ e ∈ insertionSortBy entryRel l, e ∈ l := fun e he => hperm.subset he
  have hrel : ∀ e1 ∈ l, ∀ e2 ∈ l, ∀ s1 s2, e1.1 = Val.str s1 → e2.1 = Val.str s2 →
      entryRel e1 e2 = !(lexLt s2.data s1.data) := by
    intro e1 _ e2 _ s1 s2 h1 h2
    unfold entryRel
    rw [h1, h2]
    rfl
  have hpw := pairwise_insertionSortBy entryRel l ?htot ?htrans
  case htot =>
    intro a hA b hB
    obtain ⟨sa, hsa⟩ := hstr a hA
    obtain ⟨sb, hsb⟩ := hstr b hB
    rw [hrel a hA b hB sa sb hsa hsb, hrel b hB a hA sb sa hsb hsa]
    cases hq : lexLt sb.data sa.data with
    | false => left; rfl
    | true => right; rw [lexLt_asymm _ _ hq]; rfl
  case htrans =>
    intro a hA b hB c hC h1' h2'
    obtain ⟨sa, hsa⟩ := hstr a hA
    obtain ⟨sb, hsb⟩ := hstr b hB
    obtain ⟨sc, hsc⟩ := hstr c hC
    rw [hrel a hA b hB sa sb hsa hsb] at h1'
    rw [hrel b hB c hC sb sc hsb hsc] at h2'
    rw [hrel a hA c hC sa sc hsa hsc]
    simp only [Bool.not_eq_true'] at h1' h2' ⊢
    exact lexLt_neg_trans _ _ _ h2' h1'
  have hdistS : ((insertionSortBy entryRel l).map Prod.fst).Pairwise
      (fun k1 k2 => toKey k1 ≠ toKey k2) := by
    refine ((hperm.map Prod.fst).pairwise_iff ?_).mpr hdist
    intro x y hxy
    exact fun h2 => hxy h2.symm
  refine List.Pairwise.chain' ?_
  rw [List.pairwise_map] at hdistS ⊢
  have hcomb := hpw.and hdistS
  refine List.Pairwise.imp_of_mem ?_ hcomb
  intro a b hA hB hrd
  obtain ⟨hr, hd⟩ := hrd
  obtain ⟨sa, hsa⟩ := hstr a (hmem a hA)
  obtain ⟨sb, hsb⟩ := hstr b (hmem b hB)
  rw [hrel a (hmem a hA) b (hmem b hB) sa sb hsa hsb] at hr
  simp only [Bool.not_eq_true'] at hr
  rw [hsa, hsb] at hd ⊢
  have hne : sa ≠ sb := by
    intro hEq
    exact hd (by rw [hEq])
  have hlt : lexLt sa.data sb.data = true := by
    cases hq : lexLt sa.data sb.data with
    | true => rfl
    | false =>
      have h9 := lexLt_conn sa.data sb.data hq hr
      refine absurd ?_ hne
      cases sa
      cases sb
      exact congrArg String.mk h9
  show pyLt (.str sa) (.str sb) = .ok true
  rw [show pyLt (.str sa) (.str sb) = .ok (lexLt sa.data sb.data) from rfl, hlt]

/-- C6: when all derived issuer names are strings (as "alphabetically by
issuer name" presumes), the group keys are: each priority name of
`ISSUER_ORDER` that some input badge classifies to, in `ISSUER_ORDER`
order, followed by the remaining keys strictly ascending; no remaining key
matches a priority name, and no group is empty (absent priority issuers
produce no group). -/
theorem C6_group_order (badges : List Val) (g : List (Val × List Val))
    (h : group_badges (.list badges) = .ok g)
    (hstr : ∀ b ∈ badges, ∀ v, issuer_name b = .ok v → ∃ s, v = .str s) :
    ∃ restKeys,
      g.map Prod.fst =
        (ISSUER_ORDER.filter (presentB badges)).map Val.str ++ restKeys ∧
      restKeys.Chain' (fun k1 k2 => pyLt k1 k2 = .ok true) ∧
      (∀ k ∈ restKeys, ∀ n ∈ ISSUER_ORDER, pyEq (.str n) k = false) ∧
      (∀ e ∈ g, e.2 ≠ []) := by
  obtain ⟨G0, G1, h0, h1, h2⟩ := group_badges_decomp badges g h
  have hInv := accumulate_invariant badges [] [] G0 h0 accInv_nil
  rw [List.nil_append] at hInv
  obtain ⟨ia, ib, ic, id', ie', ig⟩ := hInv
  obtain ⟨hout, hcomp⟩ := reorder_char G1 g h2
  have hkeys01 : G1.map Prod.fst = G0.map Prod.fst := sortEach_keys G0 G1 h1
  have hdist1 : (G1.map Prod.fst).Pairwise (fun k1 k2 => toKey k1 ≠ toKey k2) := by
    rw [hkeys01]
    exact ic
  have hkstr : ∀ k ∈ G1.map Prod.fst, ∃ s, k = Val.str s := by
    intro k hk
    rw [hkeys01] at hk
    obtain ⟨b, hb, hbk⟩ := ig k hk
    exact hstr b hb k hbk
  have hne1 : ∀ e ∈ G1, e.2 ≠ [] := by
    intro e he hnil
    obtain ⟨e0, he0, hk, hv⟩ := sortEach_mem G0 G1 h1 e he
    have hperm := perm_insertionSortBy groupSortRel e0.2
    rw [← hv, hnil] at hperm
    exact ie' e0 he0 hperm.symm.eq_nil
  have hperm1 : g.Perm G1 := by
    rw [hout]
    refine List.Perm.trans ?_ (popKnown_perm ISSUER_ORDER G1)
    exact List.Perm.append_left _ (perm_insertionSortBy _ _)
  have hisome : ∀ n : String, (dlookupEntry G1 (.str n)).isSome = presentB badges n := by
    intro n
    cases hq : presentB badges n with
    | true =>
      obtain ⟨b, hb, hbm⟩ := List.any_eq_true.mp hq
      rcases hu : issuer_name b with err | v <;> rw [hu] at hbm
      · cases hbm
      · rcases v with _ | _ | _ | m | _ | _ <;> try cases hbm
        have hm : m = n := by simpa using hbm
        subst hm
        obtain ⟨w, hw, hwh, k, hkk, hwk⟩ := ib b hb
        rw [hu] at hw
        have hwv : w = Val.str m := (Except.ok.inj hw).symm
        subst hwv
        have hkn : k = Val.str m := (pyEq_str_iff m k).mp hwk
        subst hkn
        rw [← hkeys01] at hkk
        obtain ⟨e, heG1, hef⟩ := List.mem_map.mp hkk
        refine (dlookupEntry_isSome_iff (Val.str m) G1).mpr ⟨e, heG1, ?_⟩
        rw [hef]
        simp [pyEq]
    | false =>
      cases hq2 : (dlookupEntry G1 (.str n)).isSome with
      | false => rfl
      | true =>
        obtain ⟨e, heG1, hpe⟩ := (dlookupEntry_isSome_iff (Val.str n) G1).mp hq2
        have he1 : e.1 = Val.str n := (pyEq_str_iff n e.1).mp hpe
        obtain ⟨e0, he0, hk, hv⟩ := sortEach_mem G0 G1 h1 e heG1
        obtain ⟨b, hb⟩ := List.exists_mem_of_ne_nil e0.2 (ie' e0 he0)
        have ha0 := ia e0 he0
        rw [ha0] at hb
        obtain ⟨hbb, hbm⟩ := List.mem_filter.mp hb
        rcases hu : issuer_name b with err | v
        · rw [show issuerMB b e0.1 = false from by unfold issuerMB; rw [hu]] at hbm
          cases hbm
        · have h5 : issuerMB b e0.1 = pyEq v e0.1 := by
            unfold issuerMB
            rw [hu]
          rw [h5, ← hk, he1] at hbm
          have hvn : v = Val.str n := (pyEq_str_iff_right n v).mp hbm
          have hp2 : presentB badges n = true := by
            refine List.any_eq_true.mpr ⟨b, hbb, ?_⟩
            rw [hu, hvn]
            simp
          rw [hq] at hp2
          cases hp2
  have hdistinctNames : ISSUER_ORDER.Pairwise (fun a b => a ≠ b) := by decide
  have hknown : (popKnown ISSUER_ORDER G1).1.map Prod.fst =
      (ISSUER_ORDER.filter (presentB badges)).map Val.str := by
    rw [popKnown_known ISSUER_ORDER G1 hdistinctNames]
    congr 1
    exact List.filter_congr (fun n _ => hisome n)
  have hrestEq := popKnown_rest ISSUER_ORDER G1 hdist1
  have hrestSubl : ((popKnown ISSUER_ORDER G1).2).Sublist G1 := by
    rw [hrestEq]
    exact List.filter_sublist G1
  have hrestStr : ∀ e ∈ (popKnown ISSUER_ORDER G1).2, ∃ s, e.1 = Val.str s := by
    intro e he
    exact hkstr e.1 (List.mem_map_of_mem Prod.fst (hrestSubl.subset he))
  have hdistRest : (((popKnown ISSUER_ORDER G1).2).map Prod.fst).Pairwise
      (fun k1 k2 => toKey k1 ≠ toKey k2) :=
    hdist1.sublist (hrestSubl.map Prod.fst)
  refine ⟨(insertionSortBy entryRel (popKnown ISSUER_ORDER G1).2).map Prod.fst,
    ?_, ?_, ?_, ?_⟩
  · rw [hout, List.map_append, hknown]
  · exact sorted_entries_chain _ hrestStr hdistRest
  · intro k hk n hn
    obtain ⟨e, heS, hek⟩ := List.mem_map.mp hk
    have heR : e ∈ (popKnown ISSUER_ORDER G1).2 :=
      (perm_insertionSortBy entryRel _).subset heS
    rw [hrestEq] at heR
    have hfil := (List.mem_filter.mp heR).2
    cases hq : pyEq (.str n) e.1 with
    | false => rw [← hek]; exact hq
    | true =>
      have hany : ISSUER_ORDER.any (fun n2 => pyEq (.str n2) e.1) = true :=
        List.any_eq_true.mpr ⟨n, hn, hq⟩
      rw [hany] at hfil
      cases hfil
  · intro e he
    exact hne1 e (hperm1.subset he)

/-- Witness for C6 at the four concrete badges: IBM and Isovalent (present
priority issuers, in priority order), then Zeta; Zeta is ahead of no one and
matches no priority name; no group is empty. -/
theorem C6_group_order_witness :
    ∃ restKeys,
      wGroups.map Prod.fst =
        (ISSUER_ORDER.filter (presentB [wBadge1, wBadge2, wBadge3, wBadge4])).map Val.str
          ++ restKeys ∧
      restKeys.Chain' (fun k1 k2 => pyLt k1 k2 = .ok true) ∧
      (∀ k ∈ restKeys, ∀ n ∈ ISSUER_ORDER, pyEq (.str n) k = false) ∧
      (∀ e ∈ wGroups, e.2 ≠ []) :=
  C6_group_order [wBadge1, wBadge2, wBadge3, wBadge4] wGroups rfl
    (by
      intro b hb
      simp only [List.mem_cons, List.not_mem_nil, or_false] at hb
      rcases hb with rfl | rfl | rfl | rfl <;> exact fun v hv => ⟨_, (Except.ok.inj hv).symm⟩)

/-! ## The renderer claim (C9) -/

/-- C9 counterexample: the code emits a blank line between the heading and
the first group block, so its output differs from the claim's exact layout
(which goes straight from the heading to the first bold issuer line). -/
theorem C9_counterexample :
    render_section c9Group =
      .ok ("### Certificates & Badges\n\n**IBM**\n\n"
        ++ "<a href=\"https://www.credly.com/badges/bid/public_url\">"
        ++ "<img height=\"90\" width=\"90\" src=\"http://img\" alt=\"Nm\"/></a>\n") ∧
    render_section_claim c9Group =
      .ok ("### Certificates & Badges\n**IBM**\n\n"
        ++ "<a href=\"https://www.credly.com/badges/bid/public_url\">"
        ++ "<img height=\"90\" width=\"90\" src=\"http://img\" alt=\"Nm\"/></a>\n") ∧
    render_section c9Group ≠ render_section_claim c9Group := by
  refine ⟨rfl, rfl, ?_⟩
  intro h
  rw [show render_section c9Group =
      .ok ("### Certificates & Badges\n\n**IBM**\n\n"
        ++ "<a href=\"https://www.credly.com/badges/bid/public_url\">"
        ++ "<img height=\"90\" width=\"90\" src=\"http://img\" alt=\"Nm\"/></a>\n") from rfl,
    show render_section_claim c9Group =
      .ok ("### Certificates & Badges\n**IBM**\n\n"
        ++ "<a href=\"https://www.credly.com/badges/bid/public_url\">"
        ++ "<img height=\"90\" width=\"90\" src=\"http://img\" alt=\"Nm\"/></a>\n") from rfl] at h
  have := Except.ok.inj h
  simp at this

/-- C9 amended: for every grouped collection the renderer's output is
exactly the amended layout — heading line, blank line, then per group a bold
issuer line, a blank line, the space-joined badge fragments on one line, and
a trailing blank line, with the per-badge fragment exactly as the claim
describes it. -/
theorem C9_amended_render_shape (grouped : List (Val × List Val)) :
    render_section grouped = render_section_amended grouped := rfl

/-! ## Implicit crash claim (C10) -/

theorem popKnown_empty (ns : List String) : popKnown ns [] = ([], []) := by
  induction ns with
  | nil => rfl
  | cons n ns ih => simp [popKnown, dlookupEntry, ih]

theorem popKnown_singleton (ns : List String) (v : Val) (grp : List Val) :
    popKnown ns [(v, grp)] = ([(v, grp)], []) ∨ popKnown ns [(v, grp)] = ([], [(v, grp)]) := by
  induction ns with
  | nil => right; rfl
  | cons n ns ih =>
    unfold popKnown
    by_cases h : pyEq (.str n) v = true
    · have hv := (pyEq_str_iff n v).mp h
      subst hv
      left
      simp [dlookupEntry, h, removeEntry, popKnown_empty]
    · simp only [dlookupEntry, h]
      simpa using ih

theorem reorder_singleton (v : Val) (grp : List Val) :
    reorder [(v, grp)] = .ok [(v, grp)] := by
  unfold reorder
  rcases popKnown_singleton ISSUER_ORDER v grp with h | h <;> rw [h] <;>
    simp [allPairsComp, insertionSortBy, insertOrdered]

/-- A single badge with a well-behaved issuer groups into exactly one
one-element group. -/
theorem group_badges_singleton (b v : Val) (hv : issuer_name b = .ok v)
    (hh : hashable v = true) (hd : isDict b = true) :
    group_badges (.list [b]) = .ok [(v, [b])] := by
  have hacc : accumulate [b] [] = .ok [(v, [b])] := by
    unfold accumulate
    rw [hv]
    simp [hh, setdefaultAppend, accumulate]
  have hsg : sortGroup [b] = .ok [b] := by
    unfold sortGroup
    simp [List.all, hd, allPairsComp, comparableB, insertionSortBy, insertOrdered]
  have hse : sortEach [(v, [b])] = .ok [(v, [b])] := by
    simp [sortEach, hsg, Bind.bind, Except.bind]
  simp [group_badges, toIter, hacc, hse, reorder_singleton, Bind.bind, Except.bind]

/-- A badge dict lacking `"id"`, lacking `"badge_template"`, or whose
template dict lacks `"name"` or `"image_url"`, makes `badge_html` raise
`KeyError`. -/
theorem badge_html_keyError (kvs : List (Val × Val))
    (h : dlookup kvs (.str "id") = none ∨
         ((∃ i, dlookup kvs (.str "id") = some i) ∧
            dlookup kvs (.str "badge_template") = none) ∨
         (∃ i tkvs, dlookup kvs (.str "id") = some i ∧
            dlookup kvs (.str "badge_template") = some (.dict tkvs) ∧
            (dlookup tkvs (.str "name") = none ∨
             ((∃ nm, dlookup tkvs (.str "name") = some nm) ∧
                dlookup tkvs (.str "image_url") = none)))) :
    badge_html (.dict kvs) = .error .keyError := by
  unfold badge_html
  rcases h with h | ⟨⟨i, hi⟩, h⟩ | ⟨i, tkvs, hi, ht, h⟩
  · simp [subscr, hashable, h, Bind.bind, Except.bind]
  · simp [subscr, hashable, hi, h, Bind.bind, Except.bind]
  · rcases h with h | ⟨⟨nm, hnm⟩, h⟩ <;>
      simp [subscr, hashable, hi, ht, h, Bind.bind, Except.bind]
    simp [hnm]

theorem render_section_singleton_err (v b : Val) (hb : badge_html b = .error .keyError) :
    render_section [(v, [b])] = .error .keyError := by
  simp [render_section, render_group, mapME, hb, Bind.bind, Except.bind]

/-- C10: after a successful fetch of one badge dict whose issuer classifies
cleanly, a missing `"id"`/`"badge_template"` key (or a template dict missing
`"name"`/`"image_url"`) raises `KeyError` inside `badge_html`; the exception
is caught nowhere, so the run crashes (exit status 1 via the interpreter's
traceback) on a path distinct from both the handled fetch failure (exit 0)
and the marker error (`sys.exit(1)` after the marker message). -/
theorem C10_missing_field_keyerror_crash (kvs : List (Val × Val)) (v : Val) (readme : List Char)
    (hv : issuer_name (.dict kvs) = .ok v) (hh : hashable v = true)
    (hmiss : dlookup kvs (.str "id") = none ∨
         ((∃ i, dlookup kvs (.str "id") = some i) ∧
            dlookup kvs (.str "badge_template") = none) ∨
         (∃ i tkvs, dlookup kvs (.str "id") = some i ∧
            dlookup kvs (.str "badge_template") = some (.dict tkvs) ∧
            (dlookup tkvs (.str "name") = none ∨
             ((∃ nm, dlookup tkvs (.str "name") = some nm) ∧
                dlookup tkvs (.str "image_url") = none)))) :
    badge_html (.dict kvs) = .error .keyError ∧
    mainRun (.ok (.list [.dict kvs])) readme = .crashed .keyError ∧
    exitCode (.crashed .keyError) = 1 ∧
    (MainResult.crashed .keyError ≠ .fetchWarned ∧
     ∀ p, MainResult.crashed .keyError ≠ .patched p) := by
  have hbh := badge_html_keyError kvs hmiss
  have hg := group_badges_singleton (.dict kvs) v hv hh rfl
  refine ⟨hbh, ?_, rfl, by simp, fun p => by simp⟩
  simp [mainRun, hg, render_section_singleton_err v (.dict kvs) hbh]

/-- Witness for C10: a badge with a template but no `"id"` key; the issuer
traversal defaults to "Other" (no error) yet rendering crashes with
`KeyError`. -/
theorem C10_witness :
    badge_html (.dict [(.str "badge_template", .dict [])]) = .error .keyError ∧
    mainRun (.ok (.list [.dict [(.str "badge_template", .dict [])]])) [] = .crashed .keyError ∧
    exitCode (.crashed .keyError) = 1 ∧
    (MainResult.crashed .keyError ≠ .fetchWarned ∧
     ∀ p, MainResult.crashed .keyError ≠ .patched p) :=
  C10_missing_field_keyerror_crash [(.str "badge_template", .dict [])] (.str "Other") []
    rfl rfl (Or.inl rfl)

end Badges
